import Mathlib

/-
Verification development for the safecd entity-reconciliation store, nonce
resolution engine, hierarchical approval generator and transaction hash
verifier.

The definitions below are a shallow embedding of the TypeScript sources
(src/proposal/sync.ts, src/safe/sync.ts as the `State` class, src/types.ts,
src/utils/getSafeMsgHash.ts).  Modelling conventions, stated once here:

* JavaScript objects used as string-keyed maps are modelled as insertion
  ordered association lists (`mapGet` / `mapSet` / `mapDelete`); a missing key
  is `none`, matching `undefined`.  Accessing a property of `undefined`
  (a TypeError at runtime) is modelled as an `Except.error` whose message
  starts with "TypeError".
* `utils.getAddress` (EIP-55 normalisation) is the identity here: every
  address entering the store has already been normalised by the zod schema
  (`ethAddressSchema` applies `getAddress` on load), so re-normalisation is
  a no-op on the values the code actually sees.
* Node `path.resolve(dir, name)` / `basename` / `dirname` and `relativify`
  are modelled on canonical relative path strings, so `resolve` is string
  joining and `relativify` the identity.
* Fallible TypeScript code (`throw`) is `Except String`; the thrown message
  is reproduced.
* Asynchronous I/O collaborators (provider, transaction-service client,
  forge simulator, Safe SDK) are oracles collected in an `Env` record; they
  are pure functions of their arguments, matching the single-threaded,
  sequential execution model of the source.
-/

namespace SafeCD

/-! ## JS-flavoured helpers -/

/-- Lookup in a JS object used as a map: first binding for the key. -/
def mapGet {α : Type} (m : List (String × α)) (k : String) : Option α :=
  match m.find? (fun e => e.1 == k) with
  | some e => some e.2
  | none => none

/-- Assignment `m[k] = v` on a JS object: overwrite in place if the key is
present (JS keeps the original insertion position), else append. -/
def mapSet {α : Type} (m : List (String × α)) (k : String) (v : α) :
    List (String × α) :=
  match m with
  | [] => [(k, v)]
  | e :: rest => if e.1 == k then (k, v) :: rest else e :: mapSet rest k v

/-- Property removal `delete m[k]` on a JS object. -/
def mapDelete {α : Type} (m : List (String × α)) (k : String) :
    List (String × α) :=
  m.filter (fun e => !(e.1 == k))

/-- Truthiness of a nullable string (`executionDate`, ...): `null` and the
empty string are falsy in JS. -/
def jsTruthy (o : Option String) : Bool :=
  match o with
  | none => false
  | some s => !(s == "")

/-- Truthiness of an optional boolean flag (`createChildProposals`). -/
def jsTruthyBool (o : Option Bool) : Bool :=
  match o with
  | none => false
  | some b => b

/-- EIP-55 address normalisation `utils.getAddress`.  Addresses are modelled
as already-normalised strings (the zod schema normalises them on load), so
this is the identity. -/
def getAddress (a : String) : String := a

/-- JS `String.prototype.includes` with a single-character needle
(equivalent to character containment). -/
def jsContainsChar (s : String) (c : Char) : Bool := s.toList.contains c

/-- JS `String.prototype.toLowerCase` on the ASCII strings of the model. -/
def toLowerStr (s : String) : String := String.mk (s.toList.map Char.toLower)

/-! ## Path helpers (Node `path` module on canonical relative paths) -/

/-- Node `path.basename`: the component after the last separator. -/
def basename (p : String) : String :=
  String.mk ((p.toList.reverse.takeWhile (fun c => !(c == '/'))).reverse)

/-- Node `path.dirname`: everything before the last separator, `"."` when
there is none. -/
def dirname (p : String) : String :=
  if p.toList.contains '/' then
    String.mk ((p.toList.reverse.dropWhile (fun c => !(c == '/'))).reverse.dropLast)
  else "."

/-- Node `path.resolve(dir, name)` on canonical relative paths: joining. -/
def resolvePath (dir name : String) : String := dir ++ "/" ++ name

/-- JS `String.prototype.indexOf` for a substring: first index or `-1`. -/
def indexOfSub (s pat : String) : Int :=
  let rec go : List Char → Nat → Option Nat
    | [], i => if pat.toList.isEmpty then some i else none
    | c :: rest, i =>
      if pat.toList.isPrefixOf (c :: rest) then some i else go rest (i + 1)
  match go s.toList 0 with
  | some i => (i : Int)
  | none => -1

/-- JS `String.prototype.slice(0, stop)`: a negative `stop` counts from the
end of the string. -/
def jsSliceTo (s : String) (stop : Int) : String :=
  let n : Int := s.length
  let stop' := if stop < 0 then n + stop else stop
  let k : Nat := if stop' < 0 then 0 else stop'.toNat
  String.mk (s.toList.take k)

/-- Prefix extraction `fileName.slice(0, fileName.indexOf('.proposal.yaml'))`
from syncProposals. -/
def proposalFilePrefix (fileName : String) : String :=
  jsSliceTo fileName (indexOfSub fileName ".proposal.yaml")

/-! ## JS `parseInt` -/

/-- Numeric value of a hexadecimal digit. -/
def hexDigitVal (c : Char) : Option Nat :=
  if c.isDigit then some (c.toNat - '0'.toNat)
  else if 'a' ≤ c ∧ c ≤ 'f' then some (10 + c.toNat - 'a'.toNat)
  else if 'A' ≤ c ∧ c ≤ 'F' then some (10 + c.toNat - 'A'.toNat)
  else none

/-- Value of a non-empty digit run. -/
def digitsToNat (ds : List Char) : Nat :=
  ds.foldl (fun acc c => acc * 10 + (c.toNat - '0'.toNat)) 0

/-- Value of a non-empty hex digit run. -/
def hexToNat (ds : List Char) : Nat :=
  ds.foldl (fun acc c => acc * 16 + ((hexDigitVal c).getD 0)) 0

/-- JS `parseInt(s)`: skip leading whitespace, optional sign, `0x` prefix
switches to hexadecimal, then the maximal digit run; `none` models `NaN`. -/
def parseIntJS (s : String) : Option Int :=
  let cs := s.toList.dropWhile (fun c => c.isWhitespace)
  let signAndRest : Int × List Char :=
    match cs with
    | '-' :: rest => (-1, rest)
    | '+' :: rest => (1, rest)
    | _ => (1, cs)
  let sign := signAndRest.1
  let body := signAndRest.2
  match body with
  | '0' :: x :: rest =>
    if x == 'x' || x == 'X' then
      let hs := rest.takeWhile (fun c => (hexDigitVal c).isSome)
      if hs.isEmpty then none else some (sign * (hexToNat hs : Int))
    else
      let ds := body.takeWhile Char.isDigit
      if ds.isEmpty then none else some (sign * (digitsToNat ds : Int))
  | _ =>
    let ds := body.takeWhile Char.isDigit
    if ds.isEmpty then none else some (sign * (digitsToNat ds : Int))

/-! ## Nonce expression evaluation

The source evaluates a non-literal nonce field with the external `safe-eval`
package, wrapping the raw text in
`function getNonce(a,auto,n,nonce,pn,pendingNonce) { return EXPR; }` and
applying it to the current counters.  Modelled from the spec: §4.2 and §9
describe this collaborator as "a restricted arithmetic expression exposing
exactly four read-only bindings ... supporting the four named bindings and
basic operators", which is what the evaluator below implements (integer
literals, the six binding names, `+`, `-`, `*`, unary sign, parentheses).
Any other construct is an invalid expression (`none`). -/

/-- Per-safe counters of the nonce resolution engine (interface NonceData). -/
structure NonceData where
  nonce : Int
  pendingNonce : Int
  auto : Int
deriving Repr, DecidableEq

/-- Tokens of the restricted nonce-expression language. -/
inductive NTok where
  | num (n : Nat)
  | ident (s : String)
  | plus
  | minus
  | star
  | lparen
  | rparen
deriving Repr, DecidableEq

/-- Tokenizer for nonce expressions; fuel bounds the scan. -/
def tokenizeAux : Nat → List Char → Option (List NTok)
  | 0, _ => none
  | _, [] => some []
  | fuel + 1, c :: rest =>
    if c.isWhitespace then tokenizeAux fuel rest
    else if c.isDigit then
      let ds := (c :: rest).takeWhile Char.isDigit
      let rest' := (c :: rest).dropWhile Char.isDigit
      (tokenizeAux fuel rest').map (fun ts => NTok.num (digitsToNat ds) :: ts)
    else if c.isAlpha then
      let as := (c :: rest).takeWhile Char.isAlpha
      let rest' := (c :: rest).dropWhile Char.isAlpha
      (tokenizeAux fuel rest').map (fun ts => NTok.ident (String.mk as) :: ts)
    else if c == '+' then (tokenizeAux fuel rest).map (NTok.plus :: ·)
    else if c == '-' then (tokenizeAux fuel rest).map (NTok.minus :: ·)
    else if c == '*' then (tokenizeAux fuel rest).map (NTok.star :: ·)
    else if c == '(' then (tokenizeAux fuel rest).map (NTok.lparen :: ·)
    else if c == ')' then (tokenizeAux fuel rest).map (NTok.rparen :: ·)
    else none

/-- Resolution of the six read-only binding names exposed to the expression:
`a`/`auto`, `n`/`nonce`, `pn`/`pendingNonce`. -/
def lookupBinding (nd : NonceData) (name : String) : Option Int :=
  if name == "a" || name == "auto" then some nd.auto
  else if name == "n" || name == "nonce" then some nd.nonce
  else if name == "pn" || name == "pendingNonce" then some nd.pendingNonce
  else none

mutual

/-- Additive level of the expression grammar. -/
def parseE (nd : NonceData) : Nat → List NTok → Option (Int × List NTok)
  | 0, _ => none
  | fuel + 1, ts =>
    match parseT nd fuel ts with
    | none => none
    | some (v, rest) => parseEMore nd fuel v rest

/-- Trailing `+ term` / `- term` chain. -/
def parseEMore (nd : NonceData) : Nat → Int → List NTok → Option (Int × List NTok)
  | 0, _, _ => none
  | fuel + 1, acc, ts =>
    match ts with
    | NTok.plus :: rest =>
      match parseT nd fuel rest with
      | none => none
      | some (v, rest') => parseEMore nd fuel (acc + v) rest'
    | NTok.minus :: rest =>
      match parseT nd fuel rest with
      | none => none
      | some (v, rest') => parseEMore nd fuel (acc - v) rest'
    | _ => some (acc, ts)

/-- Multiplicative level of the expression grammar. -/
def parseT (nd : NonceData) : Nat → List NTok → Option (Int × List NTok)
  | 0, _ => none
  | fuel + 1, ts =>
    match parseF nd fuel ts with
    | none => none
    | some (v, rest) => parseTMore nd fuel v rest

/-- Trailing `* factor` chain. -/
def parseTMore (nd : NonceData) : Nat → Int → List NTok → Option (Int × List NTok)
  | 0, _, _ => none
  | fuel + 1, acc, ts =>
    match ts with
    | NTok.star :: rest =>
      match parseF nd fuel rest with
      | none => none
      | some (v, rest') => parseTMore nd fuel (acc * v) rest'
    | _ => some (acc, ts)

/-- Atoms: literals, bindings, parenthesised expressions, unary sign. -/
def parseF (nd : NonceData) : Nat → List NTok → Option (Int × List NTok)
  | 0, _ => none
  | fuel + 1, ts =>
    match ts with
    | NTok.num n :: rest => some ((n : Int), rest)
    | NTok.ident s :: rest =>
      match lookupBinding nd s with
      | some v => some (v, rest)
      | none => none
    | NTok.lparen :: rest =>
      match parseE nd fuel rest with
      | none => none
      | some (v, NTok.rparen :: rest') => some (v, rest')
      | some _ => none
    | NTok.minus :: rest =>
      match parseF nd fuel rest with
      | none => none
      | some (v, rest') => some (-v, rest')
    | NTok.plus :: rest => parseF nd fuel rest
    | _ => none

end

/-- Evaluation of a raw nonce-expression string against the counters. -/
def evalNonceExpr (raw : String) (nd : NonceData) : Option Int :=
  match tokenizeAux (raw.length + 1) raw.toList with
  | none => none
  | some ts =>
    match parseE nd (3 * ts.length + 3) ts with
    | some (v, []) => some v
    | _ => none

/-- Resolution of an explicit nonce field (syncProposals pass 1, the body of
`if (proposal.nonce !== undefined)`): try `parseInt`; on `NaN` evaluate the
text as an expression and advance `auto` exactly when the value equals the
current `auto` cursor and the raw text contains `'a'`; an unevaluable
expression is a fatal, proposal-identifying error. -/
def resolveNonceString (raw : String) (nd : NonceData) (title : String) :
    Except String (Int × NonceData) :=
  match parseIntJS raw with
  | some v => .ok (v, nd)
  | none =>
    match evalNonceExpr raw nd with
    | some v =>
      if v == nd.auto && jsContainsChar raw 'a' then
        .ok (v, { nd with auto := nd.auto + 1 })
      else
        .ok (v, nd)
    | none => .error s!"Invalid nonce expression {raw} for proposal {title}"

/-! ## Data model (src/types.ts schemas, restricted to the fields the core
reads; purely-logged fields such as `modified`, gas metadata and the decoded
call data are omitted, and the `arguments`/`labels` simulation inputs are
consumed opaquely by the simulation oracle). -/

/-- DelegateSchema entry of a populated safe. -/
structure Delegate where
  delegate : String
  delegator : String
  label : String
deriving Repr, DecidableEq

/-- PopulatedSafeSchema.  `notifications` flattens the optional
`notifications.slack.channels` list. -/
structure PopulatedSafe where
  address : String
  name : String
  owners : List String
  delegates : List Delegate
  threshold : Nat
  nonce : Nat
  version : String
  notifications : Option (List String)
deriving Repr, DecidableEq

/-- The `childOf` sub-object of a proposal. -/
structure ChildOf where
  safe : String
  hash : String
deriving Repr, DecidableEq

/-- ProposalSchema.  `notifications` flattens the slack tracking list to its
channel names. -/
structure Proposal where
  title : String
  description : Option String
  safe : String
  delegate : String
  proposalScript : Option String
  functionSig : Option String
  childOf : Option ChildOf
  nonce : Option String
  safeTxHash : Option String
  messageHash : Option String
  createChildProposals : Option Bool
  notifications : Option (List String)
deriving Repr, DecidableEq

/-- TransactionSchema, restricted to the fields the store reads. -/
structure Transaction where
  safe : String
  «to» : String
  value : String
  data : Option String
  operation : Nat
  nonce : Option Nat
  executionDate : Option String
  submissionDate : String
  transactionHash : Option String
  safeTxHash : String
  isExecuted : Bool
  trusted : Bool
deriving Repr, DecidableEq

/-- Store slot of a safe: persisted path, deletion mark, entity. -/
structure SafeEntity where
  path : String
  del : Bool
  entity : PopulatedSafe
deriving Repr, DecidableEq

/-- Store slot of a transaction. -/
structure TransactionEntity where
  path : String
  del : Bool
  entity : Transaction
deriving Repr, DecidableEq

/-- Store slot of a proposal. -/
structure ProposalEntity where
  path : String
  del : Bool
  entity : Proposal
deriving Repr, DecidableEq

/-- The entity store (class State of src/state.ts), with its secondary
indices.  EOA slots are omitted: no claim reads them. -/
structure State where
  safes : List SafeEntity := []
  safeByAddress : List (String × Nat) := []
  safeByName : List (String × Nat) := []
  transactions : List TransactionEntity := []
  transactionBySafe : List (String × List Nat) := []
  transactionByHash : List (String × Nat) := []
  proposals : List ProposalEntity := []
  proposalByHash : List (String × Nat) := []
  proposalsBySafe : List (String × List Nat) := []
deriving Repr, DecidableEq

/-- State.getSafeByAddress: index lookup, `null` when absent. -/
def State.getSafeByAddress (s : State) (address : String) : Option PopulatedSafe :=
  match mapGet s.safeByAddress (getAddress address) with
  | none => none
  | some i =>
    match s.safes[i]? with
    | some e => some e.entity
    | none => none

/-- Scan of a transaction-index list accumulating the running `maxNonce`
(initially 0); when `executedOnly` is set, transactions without a truthy
`executionDate` are skipped.  An index outside the store is the JS
`undefined.entity` TypeError. -/
def State.maxNonceScan (s : State) (executedOnly : Bool) :
    List Nat → Nat → Except String Nat
  | [], acc => .ok acc
  | i :: rest, acc =>
    match s.transactions[i]? with
    | none => .error "TypeError: transaction slot is undefined"
    | some te =>
      if executedOnly && !(jsTruthy te.entity.executionDate) then
        s.maxNonceScan executedOnly rest acc
      else
        match te.entity.nonce with
        | some n =>
          s.maxNonceScan executedOnly rest (if acc < n then n else acc)
        | none => s.maxNonceScan executedOnly rest acc

/-- State.getHighestProposalNonce: maximum nonce among all of a safe's
transactions, `null` when the safe's index list is empty.  When the safe has
no index list at all, the source reads `.length` of `undefined`: a thrown
TypeError, modelled as an error. -/
def State.getHighestProposalNonce (s : State) (safe : PopulatedSafe) :
    Except String (Option Nat) :=
  match mapGet s.transactionBySafe (getAddress safe.address) with
  | none => .error "TypeError: cannot read length of undefined"
  | some idxs =>
    if idxs.length == 0 then .ok none
    else
      match s.maxNonceScan false idxs 0 with
      | .ok m => .ok (some m)
      | .error e => .error e

/-- State.getHighestExecutedProposalNonce: like `getHighestProposalNonce`
but skipping transactions without a truthy `executionDate`. -/
def State.getHighestExecutedProposalNonce (s : State) (safe : PopulatedSafe) :
    Except String (Option Nat) :=
  match mapGet s.transactionBySafe (getAddress safe.address) with
  | none => .error "TypeError: cannot read length of undefined"
  | some idxs =>
    if idxs.length == 0 then .ok none
    else
      match s.maxNonceScan true idxs 0 with
      | .ok m => .ok (some m)
      | .error e => .error e

/-- Scan loop of State.proposalExists. -/
def proposalExistsAux (path : String) : List ProposalEntity → Nat → Int
  | [], _ => -1
  | pe :: rest, i =>
    if pe.path == path then (i : Int) else proposalExistsAux path rest (i + 1)

/-- State.proposalExists: linear path scan, `-1` when absent
(`relativify` is the identity on the canonical paths of the model). -/
def State.proposalExists (s : State) (path : String) : Int :=
  proposalExistsAux path s.proposals 0

/-- State.createProposal: push a fresh slot (`del = false`), lower-casing and
uniqueness-checking `safeTxHash` when present, and append the new index to
the by-safe list. -/
def State.createProposal (s : State) (path : String) (p : Proposal) :
    Except String State :=
  let proposalSafe := getAddress p.safe
  let step2 (s : State) (p : Proposal) : State :=
    let proposalIndex := s.proposals.length
    let bySafe :=
      match mapGet s.proposalsBySafe proposalSafe with
      | none => mapSet s.proposalsBySafe proposalSafe [proposalIndex]
      | some l => mapSet s.proposalsBySafe proposalSafe (l ++ [proposalIndex])
    { s with
      proposals := s.proposals ++ [⟨path, false, p⟩],
      proposalsBySafe := bySafe }
  match p.safeTxHash with
  | some h =>
    let hl := toLowerStr h
    if (mapGet s.proposalByHash hl).isSome then
      .error s!"Proposal with hash {h} already exists"
    else
      let p' := { p with safeTxHash := some hl }
      let s' := { s with proposalByHash := mapSet s.proposalByHash hl s.proposals.length }
      .ok (step2 s' p')
  | none => .ok (step2 s p)

/-- State.writeProposal: bounds-checked in-place update; `none` marks the
slot for deletion; otherwise the old hash index entry is dropped, the entity
replaced, a present `safeTxHash` lower-cased and re-indexed, and the index
appended (again) to the by-safe list of the old entity's safe. -/
def State.writeProposal (s : State) (index : Int) (p : Option Proposal) :
    Except String State :=
  if index < 0 ∨ s.proposals.length ≤ index then
    .error s!"Proposal index {index} out of bounds"
  else
    let i := index.toNat
    match s.proposals[i]? with
    | none => .error "TypeError: proposal slot is undefined"
    | some current =>
      match p with
      | none => .ok { s with proposals := s.proposals.set i { current with del := true } }
      | some p =>
        let proposalSafe := getAddress current.entity.safe
        let byHash :=
          match current.entity.safeTxHash with
          | some h => mapDelete s.proposalByHash (toLowerStr h)
          | none => s.proposalByHash
        let p' :=
          match p.safeTxHash with
          | some h => { p with safeTxHash := some (toLowerStr h) }
          | none => p
        let byHash' :=
          match p.safeTxHash with
          | some h => mapSet byHash (toLowerStr h) i
          | none => byHash
        let bySafe :=
          match mapGet s.proposalsBySafe proposalSafe with
          | none => mapSet s.proposalsBySafe proposalSafe [i]
          | some l => mapSet s.proposalsBySafe proposalSafe (l ++ [i])
        .ok { s with
          proposals := s.proposals.set i ⟨current.path, false, p'⟩,
          proposalByHash := byHash',
          proposalsBySafe := bySafe }

/-- State.createTransaction: uniqueness-checked push of a fresh transaction
slot (`del = false`) with both indices updated. -/
def State.createTransaction (s : State) (path : String) (tx : Transaction) :
    Except String State :=
  let txSafe := getAddress tx.safe
  let txHash := toLowerStr tx.safeTxHash
  if (mapGet s.transactionByHash txHash).isSome then
    .error s!"Transaction with hash {tx.safeTxHash} already exists"
  else
    let txIndex := s.transactions.length
    let bySafe :=
      match mapGet s.transactionBySafe txSafe with
      | none => mapSet s.transactionBySafe txSafe [txIndex]
      | some l => mapSet s.transactionBySafe txSafe (l ++ [txIndex])
    .ok { s with
      transactions := s.transactions ++ [⟨path, false, tx⟩],
      transactionBySafe := bySafe,
      transactionByHash := mapSet s.transactionByHash txHash txIndex }

/-- State.writeTransaction: bounds-checked in-place update; `none` marks the
slot for deletion; otherwise the index is filtered out of the old safe's
list (a TypeError if that list is `undefined`), the old hash entry dropped,
the entity replaced with a lower-cased hash and `del` cleared, and both
indices rebuilt. -/
def State.writeTransaction (s : State) (index : Int) (tx : Option Transaction) :
    Except String State :=
  if index < 0 ∨ s.transactions.length ≤ index then
    .error s!"Transaction index {index} out of bounds"
  else
    let i := index.toNat
    match s.transactions[i]? with
    | none => .error "TypeError: transaction slot is undefined"
    | some current =>
      match tx with
      | none => .ok { s with transactions := s.transactions.set i { current with del := true } }
      | some tx =>
        let transactionSafe := getAddress current.entity.safe
        let transactionHash := toLowerStr current.entity.safeTxHash
        match mapGet s.transactionBySafe transactionSafe with
        | none => .error "TypeError: cannot filter undefined"
        | some l =>
          let bySafe := mapSet s.transactionBySafe transactionSafe
            (l.filter (fun j => !(j == i)))
          let byHash := mapDelete s.transactionByHash transactionHash
          let tx' := { tx with safeTxHash := toLowerStr tx.safeTxHash }
          let bySafe' :=
            match mapGet bySafe transactionSafe with
            | none => mapSet bySafe transactionSafe [i]
            | some l' => mapSet bySafe transactionSafe (l' ++ [i])
          .ok { s with
            transactions := s.transactions.set i ⟨current.path, false, tx'⟩,
            transactionBySafe := bySafe',
            transactionByHash := mapSet byHash tx'.safeTxHash i }

/-- State.unbindTransaction: remove a transaction from both indices without
touching the slot itself. -/
def State.unbindTransaction (s : State) (index : Int) : Except String State :=
  if index < 0 ∨ s.transactions.length ≤ index then
    .error s!"Transaction index {index} out of bounds"
  else
    let i := index.toNat
    match s.transactions[i]? with
    | none => .error "TypeError: transaction slot is undefined"
    | some current =>
      let transactionSafe := getAddress current.entity.safe
      let transactionHash := toLowerStr current.entity.safeTxHash
      match mapGet s.transactionBySafe transactionSafe with
      | none => .error "TypeError: cannot filter undefined"
      | some l =>
        .ok { s with
          transactionBySafe := mapSet s.transactionBySafe transactionSafe
            (l.filter (fun j => !(j == i))),
          transactionByHash := mapDelete s.transactionByHash transactionHash }

/-- State.loadTransactionsInDir, with the directory walk and YAML parsing
abstracted into the `(path, transaction)` input list: every loaded slot is
pushed with `del = true`, the safe normalised, the by-safe list extended and
a duplicate hash a fatal error. -/
def State.loadTransactionsFromDisk (s : State) :
    List (String × Transaction) → Except String State
  | [] => .ok s
  | (path, tx) :: rest =>
    let tx := { tx with safe := getAddress tx.safe }
    let transactionIndex := s.transactions.length
    let bySafe :=
      match mapGet s.transactionBySafe tx.safe with
      | none => mapSet s.transactionBySafe tx.safe [transactionIndex]
      | some l => mapSet s.transactionBySafe tx.safe (l ++ [transactionIndex])
    if (mapGet s.transactionByHash (toLowerStr tx.safeTxHash)).isSome then
      .error s!"Transaction with hash {tx.safeTxHash} is defined twice"
    else
      State.loadTransactionsFromDisk
        { s with
          transactions := s.transactions ++ [⟨path, true, tx⟩],
          transactionBySafe := bySafe,
          transactionByHash := mapSet s.transactionByHash (toLowerStr tx.safeTxHash) transactionIndex }
        rest

/-- Outcome of State.saveEntity on one entity. -/
inductive SaveAction where
  | deleted
  | edited
  | created
  | untouched
deriving Repr, DecidableEq

/-- State.saveEntity on one entity slot, over a disk modelled as a
path-to-content map and the entity's serialised form: a slot marked for
deletion has its file removed when present; otherwise the file is written
only when its content differs, and created when absent. -/
def saveEntityFile (disk : List (String × String)) (path : String)
    (del : Bool) (content : String) : List (String × String) × SaveAction :=
  if del then
    if (mapGet disk path).isSome then (mapDelete disk path, .deleted)
    else (disk, .untouched)
  else
    match mapGet disk path with
    | some existing =>
      if existing == content then (disk, .untouched)
      else (mapSet disk path content, .edited)
    | none => (mapSet disk path content, .created)

/-! ## Nonce resolution (syncProposals of src/proposal/sync.ts) -/

/-- Lazy initialisation of a safe's counters (the
`if (nonces[...] === undefined)` block): `nonce` and `auto` from the highest
executed transaction nonce plus one (0 when `null`), `pendingNonce` from the
highest transaction nonce of any kind plus one (0 when `null`). -/
def initNonceData (s : State) (safe : PopulatedSafe) : Except String NonceData :=
  match s.getHighestProposalNonce safe with
  | .error e => .error e
  | .ok pendingNonce =>
    match s.getHighestExecutedProposalNonce safe with
    | .error e => .error e
    | .ok nonce =>
      .ok { nonce := match nonce with | some n => (n : Int) + 1 | none => 0,
            pendingNonce := match pendingNonce with | some n => (n : Int) + 1 | none => 0,
            auto := match nonce with | some n => (n : Int) + 1 | none => 0 }

/-- Selection loop of syncProposals: a proposal with a `safeTxHash` is
skipped outright; the remaining top-level ones (no `childOf`) are queued by
index. -/
def collectIndexes : List ProposalEntity → Nat → List Nat
  | [], _ => []
  | pe :: rest, i =>
    if pe.entity.safeTxHash.isSome then collectIndexes rest (i + 1)
    else if pe.entity.childOf.isNone then i :: collectIndexes rest (i + 1)
    else collectIndexes rest (i + 1)

/-- One queued, nonce-resolved proposal. -/
structure ScheduleItem where
  idx : Nat
  proposal : Proposal
  nonce : Int
deriving Repr, DecidableEq

/-- The per-safe counter map. -/
abbrev NonceMap := List (String × NonceData)

/-- The per-safe schedule map. -/
abbrev SchedMap := List (String × List ScheduleItem)

/-- Body of one first-pass iteration of syncProposals: initialise the
counters and the schedule entry for the proposal's safe, and resolve an
explicit nonce field, pushing the result. -/
def pass1Step (s : State) (i : Nat) (nm : NonceMap) (pm : SchedMap) :
    Except String (NonceMap × SchedMap) :=
  match s.proposals[i]? with
  | none => .error "TypeError: proposal slot is undefined"
  | some pe =>
    let p := pe.entity
    match s.getSafeByAddress p.safe with
    | none => .error s!"Safe {p.safe} not found"
    | some safe =>
      let key := getAddress safe.address
      let nmE : Except String NonceMap :=
        match mapGet nm key with
        | some _ => .ok nm
        | none =>
          match initNonceData s safe with
          | .ok nd => .ok (mapSet nm key nd)
          | .error e => .error e
      match nmE with
      | .error e => .error e
      | .ok nm =>
        let pm := match mapGet pm key with
          | some _ => pm
          | none => mapSet pm key []
        match p.nonce with
        | none => .ok (nm, pm)
        | some raw =>
          match mapGet nm key with
          | none => .error "TypeError: counters are undefined"
          | some nd =>
            match resolveNonceString raw nd p.title with
            | .error e => .error e
            | .ok (v, nd') =>
              match mapGet pm key with
              | none => .error "TypeError: schedule entry is undefined"
              | some entry =>
                .ok (mapSet nm key nd', mapSet pm key (entry ++ [⟨i, p, v⟩]))

/-- First resolution pass of syncProposals over the queued indexes. -/
def resolvePass1 (s : State) :
    List Nat → NonceMap → SchedMap → Except String (NonceMap × SchedMap)
  | [], nm, pm => .ok (nm, pm)
  | i :: rest, nm, pm =>
    match pass1Step s i nm pm with
    | .error e => .error e
    | .ok (nm, pm) => resolvePass1 s rest nm pm

/-- Body of one second-pass iteration of syncProposals: a queued proposal
with no nonce field consumes the current `auto` cursor, which is then
advanced. -/
def pass2Step (s : State) (i : Nat) (nm : NonceMap) (pm : SchedMap) :
    Except String (NonceMap × SchedMap) :=
  match s.proposals[i]? with
  | none => .error "TypeError: proposal slot is undefined"
  | some pe =>
    let p := pe.entity
    match s.getSafeByAddress p.safe with
    | none => .error "TypeError: safe is null"
    | some safe =>
      match p.nonce with
      | some _ => .ok (nm, pm)
      | none =>
        let key := getAddress safe.address
        match mapGet nm key, mapGet pm key with
        | some nd, some entry =>
          .ok (mapSet nm key { nd with auto := nd.auto + 1 },
               mapSet pm key (entry ++ [⟨i, p, nd.auto⟩]))
        | _, _ => .error "TypeError: counters are undefined"

/-- Second resolution pass of syncProposals over the queued indexes. -/
def resolvePass2 (s : State) :
    List Nat → NonceMap → SchedMap → Except String (NonceMap × SchedMap)
  | [], nm, pm => .ok (nm, pm)
  | i :: rest, nm, pm =>
    match pass2Step s i nm pm with
    | .error e => .error e
    | .ok (nm, pm) => resolvePass2 s rest nm pm

/-- Comparator order of the schedule sort (`(a, b) => a.nonce - b.nonce`). -/
def schedLE (a b : ScheduleItem) : Prop := a.nonce ≤ b.nonce

instance : DecidableRel schedLE := fun a b => Int.decLe a.nonce b.nonce

instance : IsTotal ScheduleItem schedLE := ⟨fun a b => Int.le_total a.nonce b.nonce⟩

instance : IsTrans ScheduleItem schedLE := ⟨fun _ _ _ h1 h2 => le_trans h1 h2⟩

/-- Ascending per-safe sort of the schedules
(`proposals[safe].sort((a, b) => a.nonce - b.nonce)`; the JS sort is stable,
matching the stable insertion sort used here). -/
def sortSchedules (pm : SchedMap) : SchedMap :=
  pm.map (fun e => (e.1, List.insertionSort schedLE e.2))

/-- The pure resolution phase of syncProposals: queue the unsubmitted
top-level proposals, run both passes and sort each safe's schedule. -/
def resolveSchedules (s : State) : Except String (SchedMap × NonceMap) :=
  let idxs := collectIndexes s.proposals 0
  match resolvePass1 s idxs [] [] with
  | .error e => .error e
  | .ok (nm, pm) =>
    match resolvePass2 s idxs nm pm with
    | .error e => .error e
    | .ok (nm, pm) => .ok (sortSchedules pm, nm)

/-! ## Proposal execution (syncProposal of src/proposal/sync.ts)

The I/O collaborators (provider code lookup, forge simulation subprocess
plus broadcast manifest, Safe SDK transaction building/hashing, service
estimation and submission, signer table) are modelled as the pure oracles of
an `Env` record. -/

/-- The Safe transaction data built by `safeKit.createTransaction`. -/
structure SafeTxData where
  «to» : String
  value : String
  data : String
  operation : Nat
  nonce : Int
deriving Repr, DecidableEq

/-- One planned transaction from the forge broadcast manifest. -/
structure ForgeTx where
  transactionType : String
  «to» : String
  value : String
  data : String
deriving Repr, DecidableEq

/-- The per-proposal manifest, restricted to the structured fields (the
textual log fields `raw_script`, `raw_command`, `simulation_output` are
omitted); `safe_estimation` carries the opaque estimation result. -/
structure Manifest where
  safe : PopulatedSafe
  raw_proposal : Proposal
  simulation_success : Bool
  simulation_transactions : List ForgeTx
  safe_estimation : Option String
  safe_transaction : Option SafeTxData
  error : Option String
deriving Repr, DecidableEq

/-- Oracles for the external collaborators of a sync run. -/
structure Env where
  isEOA : String → Bool
  simulate : Proposal → Option (List ForgeTx)
  multiTx : List ForgeTx → String × String × String × Nat
  bigIntStr : String → String
  estimate : String → SafeTxData → Option String
  getTransactionHash : String → SafeTxData → String
  proposeOk : String → String → Bool
  signerLoaded : String → Bool
  shouldWrite : Bool
  shouldUpload : Bool

/-- Calldata of `approveHash(bytes32 hash)` built through the ethers
Interface: the function selector `0xd4d9bdcd` followed by the hash
argument (kept textually in the model). -/
def encodeApproveHash (hash : String) : String := "0xd4d9bdcd" ++ hash

/-- The delegateExists helper: scan of a safe's delegates. -/
def delegateExists (safe : PopulatedSafe) (address : String) : Bool :=
  safe.delegates.any (fun d => getAddress d.delegate == getAddress address)

/-- Title of a generated child proposal. -/
def childTitle (hash addr : String) : String :=
  "Approval of `" ++ hash ++ "` on safe `" ++ addr ++ "`"

/-- Description of a generated child proposal; a missing parent description
is interpolated by JS as the text `undefined`. -/
def childDescription (hash addr parentTitle : String)
    (parentDesc : Option String) : String :=
  let pd := match parentDesc with | some d => d | none => "undefined"
  "Auto-generated approval of `" ++ hash ++ "` on safe `" ++ addr ++
    "`\n\n```solidity\nSafe(" ++ addr ++ ").approveHash(" ++ hash ++
    ")\n```\n\nParent proposal: " ++ parentTitle ++ "\n\n" ++ pd ++ "\n"

/-- The synthesized childOf proposal for one owner. -/
def mkChildProposal (parentCfg : Proposal) (safe : PopulatedSafe)
    (ownerSafe : PopulatedSafe) (hash : String) : Proposal :=
  { title := childTitle hash safe.address,
    description := some
      (childDescription hash (getAddress safe.address) parentCfg.title
        parentCfg.description),
    safe := ownerSafe.address,
    delegate := parentCfg.delegate,
    proposalScript := none,
    functionSig := none,
    childOf := some ⟨safe.address, hash⟩,
    nonce := none,
    safeTxHash := none,
    messageHash := none,
    createChildProposals := some true,
    notifications := none }

/-- Child persistence step of the generator (`proposalExists` then
`createProposal` when absent, `writeProposal` in place otherwise). -/
def upsertChildProposal (s : State) (path : String) (cfg : Proposal) :
    Except String State :=
  let proposalIndex := s.proposalExists path
  if proposalIndex < 0 then s.createProposal path cfg
  else s.writeProposal proposalIndex (some cfg)

/-- The manifest of a recoverable estimation failure (in both branches the
source resets `simulation_success` to false and the transaction list to
empty). -/
def estimationErrorManifest (safe : PopulatedSafe) (cfg : Proposal) : Manifest :=
  { safe := safe, raw_proposal := cfg, simulation_success := false,
    simulation_transactions := [], safe_estimation := none,
    safe_transaction := none, error := some "Safe estimation error" }

/-- Result rows of syncProposal: proposal, optional manifest, the prefix to
persist under, and whether it was uploaded. -/
abbrev SyncResults := List (Proposal × Option Manifest × String × Bool)

/-- The submission block guarded by `shouldWrite && shouldUpload`: missing
delegate registration or signer key are fatal; a `proposeTransaction`
rejection is re-thrown (fatal); on success the proposal records the hash,
the transaction's nonce and the safe's notification channels. -/
def uploadStep (env : Env) (safe : PopulatedSafe) (cfg : Proposal)
    (safeTx : SafeTxData) (hash : String) (context fileName : String) :
    Except String (Proposal × Bool) :=
  if env.shouldWrite && env.shouldUpload then
    if !(delegateExists safe cfg.delegate) then
      .error s!"Delegate {cfg.delegate} not found in safe {cfg.safe}"
    else if !(env.signerLoaded (getAddress cfg.delegate)) then
      .error s!"Signer for delegate {cfg.delegate} not loaded, please provide private key"
    else if env.proposeOk (getAddress safe.address) hash then
      let cfg := { cfg with
        safeTxHash := some hash,
        nonce := some (toString safeTx.nonce) }
      let cfg :=
        match safe.notifications with
        | some channels => { cfg with notifications := some channels }
        | none => cfg
      .ok (cfg, true)
    else
      .error s!"proposeTransaction rejected for {resolvePath context fileName}"
  else
    .ok (cfg, false)

mutual

/-- The recursive per-proposal sync procedure (syncProposal).  The `fuel`
argument bounds the recursion depth through child generation, which the
source leaves unbounded (spec §9 flags ownership cycles as a latent bug). -/
def syncProposal (env : Env) : Nat → State → NonceMap → Proposal →
    String → String → String → Int → Except String (State × NonceMap × SyncResults)
  | 0, _, _, _, _, _, _, _ => .error "recursion limit reached"
  | fuel + 1, s, cache, cfg, context, pfx, fileName, nonce =>
    match cfg.childOf with
    | some co =>
      match s.getSafeByAddress cfg.safe with
      | none => .error s!"Safe {cfg.safe} not found"
      | some safe =>
        let safeTx : SafeTxData :=
          ⟨co.safe, "0", encodeApproveHash co.hash, 0, nonce⟩
        match env.estimate safe.address safeTx with
        | none =>
          .ok (s, cache, [(cfg, some (estimationErrorManifest safe cfg), pfx, false)])
        | some est =>
          let hash := env.getTransactionHash safe.address safeTx
          let childRun : Except String (State × NonceMap × SyncResults) :=
            if jsTruthyBool cfg.createChildProposals then
              childLoop env fuel s cache cfg safe hash context safe.owners 0
            else .ok (s, cache, [])
          match childRun with
          | .error e => .error e
          | .ok (s, cache, childResults) =>
            match uploadStep env safe cfg safeTx hash context fileName with
            | .error e => .error e
            | .ok (cfg, hasProposed) =>
              .ok (s, cache,
                (cfg,
                 some { safe := safe,
                        raw_proposal := { cfg with safeTxHash := some hash },
                        simulation_success := true,
                        simulation_transactions := [],
                        safe_estimation := some est,
                        safe_transaction := some safeTx,
                        error := none },
                 pfx, hasProposed) :: childResults)
    | none =>
      match cfg.proposalScript, cfg.functionSig with
      | some _, some _ =>
        match s.getSafeByAddress cfg.safe with
        | none => .error s!"Safe {cfg.safe} not found"
        | some safe =>
          match env.simulate cfg with
          | none =>
            .ok (s, cache,
              [(cfg,
                some { safe := safe, raw_proposal := cfg,
                       simulation_success := false,
                       simulation_transactions := [],
                       safe_estimation := none, safe_transaction := none,
                       error := some "Proposal simulation error" },
                pfx, false)])
          | some txs =>
            match txs.find? (fun t => !(t.transactionType == "CALL")) with
            | some bad =>
              .error s!"Unsupported transctionType {bad.transactionType} in proposal {fileName}"
            | none =>
              if txs.length > 0 then
                let safeTx : SafeTxData :=
                  if txs.length > 1 then
                    let enc := env.multiTx txs
                    ⟨enc.1, enc.2.1, enc.2.2.1, enc.2.2.2, nonce⟩
                  else
                    match txs with
                    | t :: _ =>
                      ⟨getAddress t.to, env.bigIntStr t.value, t.data, 0, nonce⟩
                    | [] => ⟨"", "", "", 0, nonce⟩
                match env.estimate safe.address safeTx with
                | none =>
                  .ok (s, cache,
                    [(cfg, some (estimationErrorManifest safe cfg), pfx, false)])
                | some est =>
                  let hash := env.getTransactionHash safe.address safeTx
                  let childRun : Except String (State × NonceMap × SyncResults) :=
                    if jsTruthyBool cfg.createChildProposals then
                      childLoop env fuel s cache cfg safe hash context safe.owners 0
                    else .ok (s, cache, [])
                  match childRun with
                  | .error e => .error e
                  | .ok (s, cache, childResults) =>
                    match uploadStep env safe cfg safeTx hash context fileName with
                    | .error e => .error e
                    | .ok (cfg, hasProposed) =>
                      .ok (s, cache,
                        (cfg,
                         some { safe := safe,
                                raw_proposal := { cfg with safeTxHash := some hash },
                                simulation_success := true,
                                simulation_transactions := txs,
                                safe_estimation := some est,
                                safe_transaction := some safeTx,
                                error := none },
                         pfx, hasProposed) :: childResults)
              else
                .ok (s, cache,
                  [(cfg,
                    some { safe := safe, raw_proposal := cfg,
                           simulation_success := true,
                           simulation_transactions := txs,
                           safe_estimation := none, safe_transaction := none,
                           error := some "No transactions found" },
                    pfx, false)])
      | _, _ =>
        .error s!"Invalid proposal {resolvePath context fileName}, should have either childOf or proposal/function"

/-- The owner loop of the hierarchical approval generator: EOAs and
unmonitored owners are skipped, as are owner safes without the parent's
delegate; otherwise the child proposal is synthesized, persisted, given the
owner-keyed `auto` cursor (note: the source initialises the owner's counters
from the parent `safe`'s transaction history) and recursively synced. -/
def childLoop (env : Env) : Nat → State → NonceMap → Proposal →
    PopulatedSafe → String → String → List String → Nat →
    Except String (State × NonceMap × SyncResults)
  | _, s, cache, _, _, _, _, [], _ => .ok (s, cache, [])
  | 0, _, _, _, _, _, _, _ :: _, _ => .error "recursion limit reached"
  | fuel + 1, s, cache, parentCfg, safe, hash, context, owner :: rest, ownerIdx =>
    if env.isEOA owner then
      childLoop env fuel s cache parentCfg safe hash context rest (ownerIdx + 1)
    else
      match s.getSafeByAddress owner with
      | none => childLoop env fuel s cache parentCfg safe hash context rest (ownerIdx + 1)
      | some ownerSafe =>
        if !(ownerSafe.delegates.any
              (fun d => getAddress d.delegate == getAddress parentCfg.delegate)) then
          childLoop env fuel s cache parentCfg safe hash context rest (ownerIdx + 1)
        else
          let childCfg := mkChildProposal parentCfg safe ownerSafe hash
          let childFile := hash ++ "." ++ toString ownerIdx ++ ".child.proposal.yaml"
          let childPath := resolvePath context childFile
          match upsertChildProposal s childPath childCfg with
          | .error e => .error e
          | .ok s =>
            let cacheE : Except String NonceMap :=
              match mapGet cache (getAddress ownerSafe.address) with
              | some _ => .ok cache
              | none =>
                match initNonceData s safe with
                | .ok nd => .ok (mapSet cache (getAddress ownerSafe.address) nd)
                | .error e => .error e
            match cacheE with
            | .error e => .error e
            | .ok cache =>
              match mapGet cache (getAddress ownerSafe.address) with
              | none => .error "TypeError: counters are undefined"
              | some nd =>
                let nonceToUse := nd.auto
                let cache := mapSet cache (getAddress ownerSafe.address)
                  { nd with auto := nd.auto + 1 }
                match syncProposal env fuel s cache childCfg context
                    (hash ++ "." ++ toString ownerIdx ++ ".child") childFile nonceToUse with
                | .error e => .error e
                | .ok (s, cache, sub) =>
                  match childLoop env fuel s cache parentCfg safe hash context rest (ownerIdx + 1) with
                  | .error e => .error e
                  | .ok (s, cache, more) => .ok (s, cache, sub ++ more)

end

/-- Manifest write and proposal persistence for the result rows of one
synced proposal (the inner `for` of the scheduling loop); manifests written
to disk are accumulated. -/
def processResults (dir : String) :
    SyncResults → State → List (String × Manifest) → Bool →
    Except String (State × List (String × Manifest) × Bool)
  | [], s, ms, hp => .ok (s, ms, hp)
  | (p, mOpt, prefixToUse, hasProposed) :: rest, s, ms, hp =>
    match mOpt with
    | some m =>
      let ms := ms ++ [(resolvePath dir (prefixToUse ++ ".proposal.manifest.yaml"), m)]
      let proposalPath := resolvePath dir (prefixToUse ++ ".proposal.yaml")
      let proposalIndex := s.proposalExists proposalPath
      let sE :=
        if proposalIndex ≥ 0 then s.writeProposal proposalIndex (some p)
        else s.createProposal proposalPath p
      match sE with
      | .error e => .error e
      | .ok s => processResults dir rest s ms (hp || hasProposed)
    | none => processResults dir rest s ms (hp || hasProposed)

/-- Execution of one safe's sorted schedule. -/
def runItems (env : Env) (fuel : Nat) :
    List ScheduleItem → State → NonceMap → List (String × Manifest) → Bool →
    Except String (State × NonceMap × List (String × Manifest) × Bool)
  | [], s, nm, ms, hp => .ok (s, nm, ms, hp)
  | item :: rest, s, nm, ms, hp =>
    match s.proposals[item.idx]? with
    | none => .error "TypeError: proposal slot is undefined"
    | some pe =>
      let fileName := basename pe.path
      let pfx := proposalFilePrefix fileName
      let dir := dirname pe.path
      match syncProposal env fuel s nm item.proposal dir pfx fileName item.nonce with
      | .error e => .error e
      | .ok (s, nm, results) =>
        match processResults dir results s ms hp with
        | .error e => .error e
        | .ok (s, ms, hp) => runItems env fuel rest s nm ms hp

/-- Execution of every safe's schedule, in map insertion order. -/
def runSchedules (env : Env) (fuel : Nat) :
    SchedMap → State → NonceMap → List (String × Manifest) → Bool →
    Except String (State × NonceMap × List (String × Manifest) × Bool)
  | [], s, nm, ms, hp => .ok (s, nm, ms, hp)
  | (_, items) :: restSafes, s, nm, ms, hp =>
    match runItems env fuel items s nm ms hp with
    | .error e => .error e
    | .ok (s, nm, ms, hp) => runSchedules env fuel restSafes s nm ms hp

/-- The whole proposal-sync pass (syncProposals): resolution then
execution; returns the final store, counters, written manifests and the
`hasProposedOne` flag. -/
def syncProposalsRun (env : Env) (fuel : Nat) (s : State) :
    Except String (State × NonceMap × List (String × Manifest) × Bool) :=
  match resolveSchedules s with
  | .error e => .error e
  | .ok (pm, nm) => runSchedules env fuel pm s nm [] false

/-! ## Transaction hash verifier (src/utils/getSafeMsgHash.ts and spec §4.4)

Byte strings are lists of byte values; keccak256 is an opaque hash
parameter `k : List Nat → Nat` (a library primitive, out of scope per spec
§1); hex-string inputs are modelled by their numeric value. -/

/-- Big-endian byte expansion of a number into `w` bytes. -/
def beBytes : Nat → Nat → List Nat
  | 0, _ => []
  | w + 1, n => beBytes w (n / 256) ++ [n % 256]

/-- One 32-byte ABI word (all eleven fields of the struct are head-encoded
static types, each padded to 32 bytes). -/
def word32 (n : Nat) : List Nat := beBytes 32 (n % 2 ^ 256)

/-- UTF-8 bytes of the (ASCII) type string. -/
def stringBytes (s : String) : List Nat := s.toList.map Char.toNat

/-- The EIP-712 type string hashed into SAFETX_TYPEHASH. -/
def safeTxTypeString : String :=
  "SafeTx(address to,uint256 value,bytes data,uint8 operation,uint256 safeTxGas,uint256 baseGas,uint256 gasPrice,address gasToken,address refundReceiver,uint256 nonce)"

/-- The SafeTx input of getSafeMsgHash. -/
structure SafeTxInput where
  «to» : Nat
  value : Nat
  data : List Nat
  operation : Nat
  safeTxGas : Nat
  baseGas : Nat
  gasPrice : Nat
  gasToken : Nat
  refundReceiver : Nat
  nonce : Nat
deriving Repr, DecidableEq

/-- The ABI encoding of the fixed 11-field struct: type-hash constant, to,
value, payload-hash, operation, safeTxGas, baseGas, gasPrice, gasToken,
refundReceiver, nonce, each as one 32-byte word. -/
def encodeSafeTxStruct (k : List Nat → Nat) (tx : SafeTxInput) : List Nat :=
  word32 (k (stringBytes safeTxTypeString)) ++ word32 tx.to ++
    word32 tx.value ++ word32 (k tx.data) ++ word32 tx.operation ++
    word32 tx.safeTxGas ++ word32 tx.baseGas ++ word32 tx.gasPrice ++
    word32 tx.gasToken ++ word32 tx.refundReceiver ++ word32 tx.nonce

/-- getSafeMsgHash: hash the payload, ABI-encode the struct, hash the
encoding. -/
def getSafeMsgHash (k : List Nat → Nat) (tx : SafeTxInput) : Nat :=
  k (encodeSafeTxStruct k tx)

/-- Modelled from the spec: the deployed Safe contract's
`getTransactionHash` view call (§4.4 step 3, src/ contains no caller); the
contract computes the same EIP-712 struct hash over the same parameters. -/
def contractTransactionHash (k : List Nat → Nat) (tx : SafeTxInput) : Nat :=
  getSafeMsgHash k tx

/-- Text of the hash-mismatch error, with both values included. -/
def mismatchMessage (sdkHash onChainHash : Nat) : String :=
  s!"safe transaction hash mismatch: sdk computed {sdkHash}, onchain returned {onChainHash}"

/-- Modelled from the spec: the §4.4 step-4 comparison ("Fail fatally
(hash-mismatch error, values included) if the SDK hash and the on-chain
hash disagree") is not present under src/; only the recomputation
(getSafeMsgHash) is. -/
def verifyTransactionHash (sdkHash onChainHash : Nat) : Except String Unit :=
  if sdkHash ≠ onChainHash then
    .error (mismatchMessage sdkHash onChainHash)
  else .ok ()

/-! ## Concrete fixtures used by the theorems below -/

/-- A minimal proposal record to build the fixtures from. -/
def baseProposal : Proposal :=
  { title := "p", description := none, safe := "", delegate := "0xD",
    proposalScript := none, functionSig := none, childOf := none,
    nonce := none, safeTxHash := none, messageHash := none,
    createChildProposals := none, notifications := none }

/-- Safe P, owned by the contract safe C, with delegate D. -/
def safeP : PopulatedSafe :=
  { address := "0xP", name := "P", owners := ["0xC"],
    delegates := [⟨"0xD", "0xP", "l"⟩], threshold := 1, nonce := 0,
    version := "1.3.0", notifications := none }

/-- Safe C, an owner of P, with the same registered delegate D. -/
def safeC : PopulatedSafe :=
  { address := "0xC", name := "C", owners := [],
    delegates := [⟨"0xD", "0xC", "l"⟩], threshold := 1, nonce := 0,
    version := "1.3.0", notifications := none }

/-- Safe P without owners (no child generation possible). -/
def safePnoOwner : PopulatedSafe :=
  { safeP with owners := [] }

/-- Safe A, used by the resolution fixtures. -/
def safeA : PopulatedSafe :=
  { safeP with
    address := "0xA"
    name := "A"
    owners := [] }

/-- Safe B, a safe with no transaction index entry at all. -/
def safeB : PopulatedSafe :=
  { safeP with
    address := "0xB"
    name := "B"
    owners := [] }

/-- Safe X of the §8 scenario. -/
def safeX : PopulatedSafe :=
  { safeP with
    address := "0xX"
    name := "X"
    owners := [] }

/-- An executed transaction of safe P at nonce 4. -/
def txExec4 : Transaction :=
  { safe := "0xP", «to» := "0xT", value := "0", data := none, operation := 0,
    nonce := some 4, executionDate := some "2023-01-01",
    submissionDate := "2023-01-01", transactionHash := some "0xth",
    safeTxHash := "0xt4", isExecuted := true, trusted := true }

/-- A pending (unexecuted) transaction of safe X at nonce 5. -/
def txPend5 : Transaction :=
  { safe := "0xX", «to» := "0xT", value := "0", data := none, operation := 0,
    nonce := some 5, executionDate := none,
    submissionDate := "2023-01-02", transactionHash := none,
    safeTxHash := "0xt5", isExecuted := false, trusted := true }

/-- The executed-at-4 transaction rebased onto safe X. -/
def txExec4X : Transaction := { txExec4 with safe := "0xX" }

/-- The pending-at-5 transaction rebased onto safe A. -/
def txPend5A : Transaction := { txPend5 with safe := "0xA" }

/-- A benign environment: everything succeeds, no uploads. -/
def envBase : Env :=
  { isEOA := fun _ => false,
    simulate := fun _ => some [⟨"CALL", "0xT", "1", "0xdd"⟩],
    multiTx := fun _ => ("0xM", "0", "0xmulti", 1),
    bigIntStr := fun v => v,
    estimate := fun _ _ => some "est",
    getTransactionHash := fun _ _ => "0xhash",
    proposeOk := fun _ _ => true,
    signerLoaded := fun _ => true,
    shouldWrite := false, shouldUpload := false }

/-- An uploading environment whose proposeTransaction always rejects. -/
def envProposeFail : Env :=
  { envBase with
    shouldWrite := true
    shouldUpload := true
    proposeOk := fun _ _ => false }

/-- An environment whose estimation service always fails. -/
def envEstFail : Env :=
  { envBase with
    estimate := fun _ _ => none }

/-- Store with safes P (one executed transaction at nonce 4) and C (no
transactions). -/
def stP : State :=
  { safes := [⟨"safes/P.yaml", false, safeP⟩, ⟨"safes/C.yaml", false, safeC⟩],
    safeByAddress := [("0xP", 0), ("0xC", 1)],
    safeByName := [("P", 0), ("C", 1)],
    transactions := [⟨"transactions/P/4.yaml", false, txExec4⟩],
    transactionBySafe := [("0xP", [0])],
    transactionByHash := [("0xt4", 0)] }

/-- A childOf-kind parent proposal on safe P requesting child generation. -/
def cfgParent : Proposal :=
  { baseProposal with
    title := "parent"
    safe := "0xP"
    childOf := some ⟨"0xQ", "0xph"⟩
    createChildProposals := some true }

/-- Store of the §8 scenario: safe X with an executed transaction at nonce 4
and a pending one at nonce 5; safe B has no transaction entry at all. -/
def stX : State :=
  { safes := [⟨"safes/X.yaml", false, safeX⟩, ⟨"safes/B.yaml", false, safeB⟩],
    safeByAddress := [("0xX", 0), ("0xB", 1)],
    safeByName := [("X", 0), ("B", 1)],
    transactions := [⟨"transactions/X/4.yaml", false, txExec4X⟩,
                     ⟨"transactions/X/5.yaml", false, txPend5⟩],
    transactionBySafe := [("0xX", [0, 1])],
    transactionByHash := [("0xt4", 0), ("0xt5", 1)] }

/-- A top-level proposal on safe A with no nonce field. -/
def propNoNonce : Proposal :=
  { baseProposal with
    title := "q"
    safe := "0xA" }

/-- Store with safe A holding only the pending transaction at nonce 5 and
one unspecified-nonce proposal. -/
def stC3 : State :=
  { safes := [⟨"safes/A.yaml", false, safeA⟩],
    safeByAddress := [("0xA", 0)], safeByName := [("A", 0)],
    transactions := [⟨"transactions/A/5.yaml", false, txPend5A⟩],
    transactionBySafe := [("0xA", [0])],
    transactionByHash := [("0xt5", 0)],
    proposals := [⟨"script/q.proposal.yaml", false, propNoNonce⟩],
    proposalsBySafe := [("0xA", [0])] }

/-- Store with safe B (no transactions at all) and one unspecified-nonce
proposal. -/
def stC3b : State :=
  { safes := [⟨"safes/B.yaml", false, safeB⟩],
    safeByAddress := [("0xB", 0)], safeByName := [("B", 0)],
    proposals := [⟨"script/r.proposal.yaml", false,
      { baseProposal with title := "r", safe := "0xB" }⟩],
    proposalsBySafe := [("0xB", [0])] }

/-- First of two proposals that both specify the literal nonce "0". -/
def propU : Proposal :=
  { baseProposal with
    title := "u"
    safe := "0xA"
    nonce := some "0" }

/-- Second of two proposals that both specify the literal nonce "0". -/
def propV : Proposal :=
  { baseProposal with
    title := "v"
    safe := "0xA"
    nonce := some "0" }

/-- Store with two explicit-nonce proposals colliding on nonce 0. -/
def stC4 : State :=
  { safes := [⟨"safes/A.yaml", false, safeA⟩],
    safeByAddress := [("0xA", 0)], safeByName := [("A", 0)],
    transactionBySafe := [("0xA", [])],
    proposals := [⟨"script/u.proposal.yaml", false, propU⟩,
                  ⟨"script/v.proposal.yaml", false, propV⟩],
    proposalsBySafe := [("0xA", [0, 1])] }

/-- A function-kind top-level proposal on safe P at literal nonce 0. -/
def propA : Proposal :=
  { baseProposal with
    title := "A"
    safe := "0xP"
    proposalScript := some "a.sol"
    functionSig := some "run()"
    nonce := some "0" }

/-- A second function-kind top-level proposal on safe P at literal nonce 1. -/
def propB : Proposal :=
  { baseProposal with
    title := "B"
    safe := "0xP"
    proposalScript := some "b.sol"
    functionSig := some "run()"
    nonce := some "1" }

/-- Store with two function-kind proposals queued for safe P. -/
def stC7 : State :=
  { safes := [⟨"safes/P.yaml", false, safePnoOwner⟩],
    safeByAddress := [("0xP", 0)], safeByName := [("P", 0)],
    transactionBySafe := [("0xP", [])],
    proposals := [⟨"script/a.proposal.yaml", false, propA⟩,
                  ⟨"script/b.proposal.yaml", false, propB⟩],
    proposalsBySafe := [("0xP", [0, 1])] }

/-- The C10 parent: function-kind with child generation requested. -/
def propA10 : Proposal :=
  { propA with
    createChildProposals := some true }

/-- An already-submitted child proposal (safeTxHash set) sitting at the path
the generator will target. -/
def propChildOld : Proposal :=
  { baseProposal with
    title := "oldchild"
    safe := "0xC"
    childOf := some ⟨"0xP", "0xhash"⟩
    safeTxHash := some "0xh0" }

/-- Store where an already-submitted child occupies the child path of a
to-be-synced parent. -/
def stC10 : State :=
  { safes := [⟨"safes/P.yaml", false, safeP⟩, ⟨"safes/C.yaml", false, safeC⟩],
    safeByAddress := [("0xP", 0), ("0xC", 1)],
    safeByName := [("P", 0), ("C", 1)],
    transactionBySafe := [("0xP", [])],
    proposals := [⟨"script/a.proposal.yaml", false, propA10⟩,
                  ⟨"script/0xhash.0.child.proposal.yaml", false, propChildOld⟩],
    proposalByHash := [("0xh0", 1)],
    proposalsBySafe := [("0xP", [0]), ("0xC", [1])] }

/-- A concrete SafeTx input for the hash-verifier witness. -/
def sampleTx : SafeTxInput :=
  { «to» := 7, value := 3, data := [1, 2, 3], operation := 0,
    safeTxGas := 0, baseGas := 0, gasPrice := 0, gasToken := 0,
    refundReceiver := 0, nonce := 1 }

/-! ## Helper lemmas -/

theorem beBytes_length (w : Nat) : ∀ n, (beBytes w n).length = w := by
  induction w with
  | zero => intro n; rfl
  | succ w ih => intro n; simp [beBytes, ih]

theorem beBytes_inj (w : Nat) : ∀ a b, a < 256 ^ w → b < 256 ^ w →
    beBytes w a = beBytes w b → a = b := by
  induction w with
  | zero =>
    intro a b ha hb _
    simp only [pow_zero, Nat.lt_one_iff] at ha hb
    omega
  | succ w ih =>
    intro a b ha hb h
    simp only [beBytes] at h
    obtain ⟨h1, h2⟩ := List.append_inj h (by simp [beBytes_length])
    have hmod : a % 256 = b % 256 := by simpa using h2
    have hda : a / 256 < 256 ^ w := by
      rw [Nat.div_lt_iff_lt_mul (by norm_num)]
      calc a < 256 ^ (w + 1) := ha
        _ = 256 ^ w * 256 := by rw [pow_succ]
    have hdb : b / 256 < 256 ^ w := by
      rw [Nat.div_lt_iff_lt_mul (by norm_num)]
      calc b < 256 ^ (w + 1) := hb
        _ = 256 ^ w * 256 := by rw [pow_succ]
    have hdiv : a / 256 = b / 256 := ih _ _ hda hdb h1
    omega

theorem word32_inj {a b : Nat} (ha : a < 2 ^ 256) (hb : b < 2 ^ 256)
    (h : word32 a = word32 b) : a = b := by
  have hp : (256 : Nat) ^ 32 = 2 ^ 256 := by
    calc (256 : Nat) ^ 32 = (2 ^ 8) ^ 32 := by norm_num
      _ = 2 ^ 256 := by rw [← pow_mul]
  have := beBytes_inj 32 (a % 2 ^ 256) (b % 2 ^ 256)
    (by rw [hp]; exact Nat.mod_lt _ (by positivity))
    (by rw [hp]; exact Nat.mod_lt _ (by positivity)) h
  rwa [Nat.mod_eq_of_lt ha, Nat.mod_eq_of_lt hb] at this

theorem encodeSafeTxStruct_nonce_ne (k : List Nat → Nat) (tx : SafeTxInput)
    (n' : Nat) (hne : n' ≠ tx.nonce) (h1 : n' < 2 ^ 256) (h2 : tx.nonce < 2 ^ 256) :
    encodeSafeTxStruct k { tx with nonce := n' } ≠ encodeSafeTxStruct k tx := by
  intro h
  simp only [encodeSafeTxStruct] at h
  replace h := List.append_cancel_left h
  exact hne (word32_inj h1 h2 h)

theorem proposalExistsAux_nonneg (path : String) :
    ∀ (l : List ProposalEntity) (n : Nat), 0 ≤ proposalExistsAux path l n →
    ∃ k pe, proposalExistsAux path l n = ((n + k : Nat) : Int) ∧
      l[k]? = some pe ∧ pe.path = path := by
  intro l
  induction l with
  | nil => intro n h; simp [proposalExistsAux] at h
  | cons pe rest ih =>
    intro n h
    by_cases hp : (pe.path == path) = true
    · refine ⟨0, pe, ?_, by simp, eq_of_beq hp⟩
      simp [proposalExistsAux, hp]
    · have h' : proposalExistsAux path (pe :: rest) n = proposalExistsAux path rest (n + 1) := by
        simp [proposalExistsAux, hp]
      rw [h'] at h ⊢
      obtain ⟨k, pe', hk, hget, hpath⟩ := ih (n + 1) h
      refine ⟨k + 1, pe', ?_, ?_, hpath⟩
      · rw [hk]; congr 1; omega
      · simpa using hget

theorem writeProposal_ok (s : State) (k : Nat) (pe : ProposalEntity) (p : Proposal)
    (hget : s.proposals[k]? = some pe) (hp : p.safeTxHash = none) :
    ∃ byHash bySafe, s.writeProposal (k : Int) (some p) =
      .ok { s with
        proposals := s.proposals.set k ⟨pe.path, false, p⟩,
        proposalByHash := byHash,
        proposalsBySafe := bySafe } := by
  have hklen : k < s.proposals.length := by
    obtain ⟨h, _⟩ := List.getElem?_eq_some_iff.mp hget
    exact h
  have hcond : ¬((k : Int) < 0 ∨ (s.proposals.length : Int) ≤ (k : Int)) := by
    push_neg
    exact ⟨by exact_mod_cast Nat.zero_le k, by exact_mod_cast hklen⟩
  unfold State.writeProposal
  rw [if_neg hcond]
  simp only [Int.toNat_natCast]
  rw [hget, hp]
  exact ⟨_, _, rfl⟩

theorem mapGet_mapDelete_self {α : Type} (m : List (String × α)) (k : String) :
    mapGet (mapDelete m k) k = none := by
  induction m with
  | nil => rfl
  | cons e rest ih =>
    by_cases he : (e.1 == k) = true
    · simpa [mapDelete, List.filter_cons, he] using ih
    · simp only [mapDelete, List.filter_cons] at ih ⊢
      simp [he, mapGet, List.find?_cons, ih]
      simpa [mapGet] using ih

theorem load_del_invariant :
    ∀ (txs : List (String × Transaction)) (s s' : State),
      (∀ te ∈ s.transactions, te.del = true) →
      State.loadTransactionsFromDisk s txs = .ok s' →
      ∀ te ∈ s'.transactions, te.del = true := by
  intro txs
  induction txs with
  | nil =>
    intro s s' h hl
    unfold State.loadTransactionsFromDisk at hl
    obtain rfl : s = s' := Except.ok.inj hl
    exact h
  | cons htx rest ih =>
    intro s s' h hl
    unfold State.loadTransactionsFromDisk at hl
    simp only [] at hl
    split at hl
    · exact Except.noConfusion hl
    · refine ih _ _ ?_ hl
      intro te hte
      rcases List.mem_append.mp hte with h1 | h1
      · exact h _ h1
      · simp only [List.mem_singleton] at h1
        rw [h1]

theorem sortSchedules_pairwise (pm : SchedMap) :
    ∀ k l, (k, l) ∈ sortSchedules pm → l.Pairwise schedLE := by
  intro k l hmem
  obtain ⟨⟨k0, l0⟩, hm0, heq⟩ := List.mem_map.mp hmem
  injection heq with ha hb
  subst ha
  subst hb
  exact List.sorted_insertionSort schedLE l0

/-! ## Claim theorems -/

/-- C1: before any signature is requested, the verifier recomputes the
typed-data hash (keccak of the payload, ABI-encoding of the fixed 11-field
SafeTx struct, keccak of that encoding), queries the deployed contract's
hash of the same parameters, and raises a fatal hash-mismatch error exactly
when the SDK-computed and on-chain hashes disagree; in particular a
corrupted nonce (under a collision-free hash) must raise the error. -/
theorem C1_verifier_raises_on_mismatch
    (k : List Nat → Nat) (hk : Function.Injective k)
    (tx : SafeTxInput) (badNonce : Nat) (hne : badNonce ≠ tx.nonce)
    (hb : badNonce < 2 ^ 256) (hb' : tx.nonce < 2 ^ 256) :
    (∀ sdkHash onChainHash : Nat,
        verifyTransactionHash sdkHash onChainHash = .ok () ↔ sdkHash = onChainHash) ∧
    verifyTransactionHash (getSafeMsgHash k { tx with nonce := badNonce })
        (contractTransactionHash k tx)
      = .error (mismatchMessage (getSafeMsgHash k { tx with nonce := badNonce })
          (contractTransactionHash k tx)) := by
  constructor
  · intro a b
    by_cases h : a = b <;> simp [verifyTransactionHash, h]
  · have hne' : getSafeMsgHash k { tx with nonce := badNonce } ≠ contractTransactionHash k tx := by
      intro h
      exact encodeSafeTxStruct_nonce_ne k tx badNonce hne hb hb' (hk h)
    simp [verifyTransactionHash, hne']

/-- C1 witness: the verifier at a concrete transaction whose nonce is
corrupted from 1 to 2, with an injective hash function. -/
theorem C1_verifier_raises_on_mismatch_witness :
    verifyTransactionHash (getSafeMsgHash Encodable.encode { sampleTx with nonce := 2 })
        (contractTransactionHash Encodable.encode sampleTx)
      = .error (mismatchMessage (getSafeMsgHash Encodable.encode { sampleTx with nonce := 2 })
          (contractTransactionHash Encodable.encode sampleTx)) :=
  (C1_verifier_raises_on_mismatch Encodable.encode Encodable.encode_injective
    sampleTx 2 (by decide) (by decide) (by decide)).2

/-- C2: evaluation of the child generator at a parent safe P (executed
transaction at nonce 4) with owner-safe C (no transactions of its own): the
source initialises C's counters from P's transaction history, so the child
proposal is allocated nonce 5 (the claim's initialisation from C's own
history would give 0), and the auto cursor advances to 6. -/
theorem C2_child_counters_from_parent_history :
    (syncProposal envBase 5 stP [] cfgParent "script" "parent" "parent.proposal.yaml" 7).toOption.map
      (fun r => (mapGet r.2.1 "0xC",
        r.2.2.map (fun q => (q.2.2.1, q.2.1.map (fun m => m.safe_transaction.map (fun t => t.nonce))))))
      = some (some ⟨5, 5, 6⟩,
          [("parent", some (some 7)), ("0xhash.0.child", some (some 5))]) := rfl

/-- C3: evaluation of the lazy counter initialisation: for safe A whose only
transaction is pending at nonce 5, the executed-max scan returns 0 (not the
null sentinel), so the first unspecified-nonce proposal resolves to 1
instead of the claimed 0; for safe B with no transaction entry at all, the
engine throws a TypeError instead of resolving 0. -/
theorem C3_pending_only_counter_and_missing_entry :
    resolveSchedules stC3 = .ok ([("0xA", [⟨0, propNoNonce, 1⟩])], [("0xA", ⟨1, 6, 2⟩)]) ∧
    resolveSchedules stC3b = .error "TypeError: cannot read length of undefined" :=
  ⟨rfl, rfl⟩

/-- C4 counterexample: two proposals with the explicit literal nonce "0" on
the same safe resolve to the duplicate schedule [0, 0], which is not
strictly increasing. -/
theorem C4_duplicate_nonces_counterexample :
    resolveSchedules stC4 = .ok ([("0xA", [⟨0, propU, 0⟩, ⟨1, propV, 0⟩])], [("0xA", ⟨0, 0, 0⟩)]) ∧
    ¬ ([⟨0, propU, 0⟩, ⟨1, propV, 0⟩] : List ScheduleItem).Pairwise (fun a b => a.nonce < b.nonce) := by
  refine ⟨rfl, ?_⟩
  intro h
  simp [List.pairwise_cons] at h

/-- C4 (amended): every per-safe schedule produced by a resolution pass is
sorted ascending by resolved nonce (non-decreasing submission order);
duplicates are possible when explicit nonce fields collide. -/
theorem C4_schedule_sorted (s : State) (pm : SchedMap) (nm : NonceMap)
    (h : resolveSchedules s = .ok (pm, nm)) :
    ∀ k l, (k, l) ∈ pm → l.Pairwise schedLE := by
  unfold resolveSchedules at h
  simp only [] at h
  split at h
  · exact Except.noConfusion h
  · split at h
    · exact Except.noConfusion h
    · have h' := Except.ok.inj h
      injection h' with ha hb
      subst ha
      subst hb
      exact sortSchedules_pairwise _

/-- C4 witness: sortedness of the concrete duplicate schedule. -/
theorem C4_schedule_sorted_witness :
    ([⟨0, propU, 0⟩, ⟨1, propV, 0⟩] : List ScheduleItem).Pairwise schedLE :=
  C4_schedule_sorted stC4 [("0xA", [⟨0, propU, 0⟩, ⟨1, propV, 0⟩])] [("0xA", ⟨0, 0, 0⟩)]
    rfl "0xA" [⟨0, propU, 0⟩, ⟨1, propV, 0⟩] (by simp)

/-- C5: evaluation of the transaction-nonce scans: for safe X with an
executed transaction at nonce 4 and a pending one at nonce 5 they return 4
(executed) and 5 (all); but for safe B with no transactions at all both
throw a TypeError instead of returning the null sentinel. -/
theorem C5_highest_nonce_scenario_and_typeerror :
    stX.getHighestProposalNonce safeX = .ok (some 5) ∧
    stX.getHighestExecutedProposalNonce safeX = .ok (some 4) ∧
    stX.getHighestProposalNonce safeB = .error "TypeError: cannot read length of undefined" ∧
    stX.getHighestExecutedProposalNonce safeB = .error "TypeError: cannot read length of undefined" :=
  ⟨rfl, rfl, rfl, rfl⟩

/-- C6: a nonce field that does not parse as a literal integer is evaluated
as an arithmetic expression over the bindings; the auto cursor advances
exactly when the value equals the cursor and the raw text contains 'a';
"a+1" at auto = 3 yields 4 without advancing; a literal "5" resolves to 5
regardless of counter state; an unevaluable expression is a fatal error
naming the proposal. -/
theorem C6_nonce_expression_semantics :
    (∀ raw nd title v nd',
        parseIntJS raw = none →
        resolveNonceString raw nd title = .ok (v, nd') →
        evalNonceExpr raw nd = some v ∧
        nd'.nonce = nd.nonce ∧ nd'.pendingNonce = nd.pendingNonce ∧
        nd'.auto = (if v = nd.auto ∧ jsContainsChar raw 'a' then nd.auto + 1 else nd.auto)) ∧
    (∀ raw nd title, parseIntJS raw = none → evalNonceExpr raw nd = none →
        resolveNonceString raw nd title =
          .error s!"Invalid nonce expression {raw} for proposal {title}") ∧
    (∀ n p t, resolveNonceString "a+1" ⟨n, p, 3⟩ t = .ok (4, ⟨n, p, 3⟩)) ∧
    (∀ nd t, resolveNonceString "5" nd t = .ok (5, nd)) := by
  refine ⟨?_, ?_, ?_, ?_⟩
  · intro raw nd title v nd' hp hr
    unfold resolveNonceString at hr
    cases he : evalNonceExpr raw nd with
    | none => simp only [hp, he] at hr; exact Except.noConfusion hr
    | some w =>
      simp only [hp, he] at hr
      by_cases hc : (w == nd.auto && jsContainsChar raw 'a') = true
      · rw [if_pos hc] at hr
        simp only [Bool.and_eq_true, beq_iff_eq] at hc
        simp only [Except.ok.injEq, Prod.mk.injEq] at hr
        obtain ⟨rfl, rfl⟩ := hr
        refine ⟨rfl, rfl, rfl, ?_⟩
        rw [if_pos ⟨hc.1, hc.2⟩]
      · rw [if_neg hc] at hr
        simp only [Bool.and_eq_true, beq_iff_eq, not_and] at hc
        simp only [Except.ok.injEq, Prod.mk.injEq] at hr
        obtain ⟨rfl, rfl⟩ := hr
        refine ⟨rfl, rfl, rfl, ?_⟩
        rw [if_neg]
        intro h12
        exact absurd h12.2 (by simpa using hc h12.1)
  · intro raw nd title hp he
    unfold resolveNonceString
    rw [hp, he]
  · intro n p t
    rfl
  · intro nd t
    rfl

/-- C6 witness: the expression "pn" evaluated at counters (1, 7, 3) yields
7 and leaves the counters untouched. -/
theorem C6_nonce_expression_semantics_witness :
    evalNonceExpr "pn" ⟨1, 7, 3⟩ = some 7 ∧
    (1 : Int) = 1 ∧ (7 : Int) = 7 ∧
    (3 : Int) = (if (7 : Int) = 3 ∧ jsContainsChar "pn" 'a' then 3 + 1 else 3) :=
  C6_nonce_expression_semantics.1 "pn" ⟨1, 7, 3⟩ "t" 7 ⟨1, 7, 3⟩ rfl rfl

/-- C7 counterexample: a proposeTransaction rejection is re-thrown and
aborts the whole run; the second queued proposal is never processed and no
manifest survives. -/
theorem C7_propose_failure_aborts :
    syncProposalsRun envProposeFail 5 stC7 =
      .error "proposeTransaction rejected for script/a.proposal.yaml" := rfl

/-- C8: the child persistence step is idempotent: it always succeeds; at a
fresh path it appends exactly one record; at an existing path it updates
that record in place (proposal count unchanged, every other slot
untouched). -/
theorem C8_child_upsert_idempotent (s : State) (path : String) (cfg : Proposal)
    (hcfg : cfg.safeTxHash = none) :
    ((upsertChildProposal s path cfg).isOk = true) ∧
    (s.proposalExists path < 0 →
      ∀ s', upsertChildProposal s path cfg = .ok s' →
        s'.proposals.length = s.proposals.length + 1 ∧
        s'.proposals[s.proposals.length]? = some ⟨path, false, cfg⟩ ∧
        ∀ j : Nat, j < s.proposals.length → s'.proposals[j]? = s.proposals[j]?) ∧
    (0 ≤ s.proposalExists path →
      ∀ s', upsertChildProposal s path cfg = .ok s' →
        s'.proposals.length = s.proposals.length ∧
        s'.proposals[(s.proposalExists path).toNat]? = some ⟨path, false, cfg⟩ ∧
        ∀ j : Nat, j ≠ (s.proposalExists path).toNat → s'.proposals[j]? = s.proposals[j]?) := by
  by_cases hex : s.proposalExists path < 0
  · have hcreate : upsertChildProposal s path cfg =
        .ok { s with
          proposals := s.proposals ++ [⟨path, false, cfg⟩],
          proposalsBySafe :=
            match mapGet s.proposalsBySafe (getAddress cfg.safe) with
            | none => mapSet s.proposalsBySafe (getAddress cfg.safe) [s.proposals.length]
            | some l => mapSet s.proposalsBySafe (getAddress cfg.safe) (l ++ [s.proposals.length]) } := by
      unfold upsertChildProposal State.createProposal
      rw [if_pos hex, hcfg]
    refine ⟨by rw [hcreate]; rfl, ?_, ?_⟩
    · intro _ s' hs'
      rw [hcreate] at hs'
      obtain rfl : _ = s' := Except.ok.inj hs'
      refine ⟨by simp, List.getElem?_concat_length _ _, ?_⟩
      intro j hj
      simp [List.getElem?_append, hj]
    · intro hge
      omega
  · push_neg at hex
    obtain ⟨k, pe, hk, hget, hpath⟩ := proposalExistsAux_nonneg path s.proposals 0 hex
    have hkk : s.proposalExists path = (k : Int) := by
      unfold State.proposalExists
      rw [hk]
      congr 1
      omega
    have hklen : k < s.proposals.length := by
      obtain ⟨h, _⟩ := List.getElem?_eq_some_iff.mp hget
      exact h
    obtain ⟨byHash, bySafe, hwp⟩ := writeProposal_ok s k pe cfg hget hcfg
    have hup : upsertChildProposal s path cfg =
        .ok { s with
          proposals := s.proposals.set k ⟨pe.path, false, cfg⟩,
          proposalByHash := byHash,
          proposalsBySafe := bySafe } := by
      unfold upsertChildProposal
      rw [hkk, if_neg (by omega)]
      exact hwp
    refine ⟨by rw [hup]; rfl, fun hlt => absurd hkk (by intro h; rw [h] at hlt; omega), ?_⟩
    intro _ s' hs'
    rw [hup] at hs'
    obtain rfl : _ = s' := Except.ok.inj hs'
    rw [hkk]
    simp only [Int.toNat_natCast]
    refine ⟨by simp, ?_, ?_⟩
    · simp [List.getElem?_set_self hklen, hpath]
    · intro j hj
      exact List.getElem?_set_ne (fun h => hj h.symm)

/-- C8 witness: upserting the generated child at the already-occupied child
path of stC10 succeeds. -/
theorem C8_child_upsert_idempotent_witness :
    ((upsertChildProposal stC10 "script/0xhash.0.child.proposal.yaml"
        (mkChildProposal propA10 safeP safeC "0xhash")).isOk = true) :=
  (C8_child_upsert_idempotent stC10 "script/0xhash.0.child.proposal.yaml"
    (mkChildProposal propA10 safeP safeC "0xhash") rfl).1

/-- C9: State.load marks every transaction slot loaded from disk with
del = true; writeTransaction and createTransaction clear the mark; at
commit a still-marked slot's file is removed (absent afterwards), while an
unmarked slot is written only when its serialised content differs. -/
theorem C9_load_marks_del_and_save :
    (∀ (txs : List (String × Transaction)) (s' : State),
        State.loadTransactionsFromDisk {} txs = .ok s' →
        ∀ te ∈ s'.transactions, te.del = true) ∧
    (∀ (s : State) (i : Int) (tx : Transaction) (s' : State),
        s.writeTransaction i (some tx) = .ok s' →
        s'.transactions[i.toNat]?.map (fun te => te.del) = some false) ∧
    (∀ (s : State) (path : String) (tx : Transaction) (s' : State),
        s.createTransaction path tx = .ok s' →
        s'.transactions[s.transactions.length]? = some ⟨path, false, tx⟩) ∧
    (∀ (disk : List (String × String)) (path content : String),
        mapGet ((saveEntityFile disk path true content).1) path = none) ∧
    (∀ (disk : List (String × String)) (path content : String),
        mapGet disk path = some content →
        saveEntityFile disk path false content = (disk, .untouched)) ∧
    (∀ (disk : List (String × String)) (path content old : String),
        mapGet disk path = some old → old ≠ content →
        saveEntityFile disk path false content = (mapSet disk path content, .edited)) := by
  refine ⟨?_, ?_, ?_, ?_, ?_, ?_⟩
  · intro txs s' hl
    exact load_del_invariant txs {} s' (by intro te h; simp at h) hl
  · intro s i tx s' hw
    unfold State.writeTransaction at hw
    split at hw
    · exact Except.noConfusion hw
    · next hbound =>
      push_neg at hbound
      have hlen : i.toNat < s.transactions.length := by omega
      simp only [] at hw
      cases hget : s.transactions[i.toNat]? with
      | none => rw [hget] at hw; exact Except.noConfusion hw
      | some current =>
        simp only [hget] at hw
        cases hgetb : mapGet s.transactionBySafe (getAddress current.entity.safe) with
        | none => rw [hgetb] at hw; exact Except.noConfusion hw
        | some l =>
          simp only [hgetb] at hw
          obtain rfl : _ = s' := Except.ok.inj hw
          simp [List.getElem?_set_self hlen]
  · intro s path tx s' hc
    unfold State.createTransaction at hc
    simp only [] at hc
    split at hc
    · exact Except.noConfusion hc
    · obtain rfl : _ = s' := Except.ok.inj hc
      simp [List.getElem?_concat_length]
  · intro disk path content
    unfold saveEntityFile
    by_cases hs : (mapGet disk path).isSome = true
    · simp only [if_pos rfl, if_pos hs]
      exact mapGet_mapDelete_self disk path
    · simp only [if_pos rfl, hs, Bool.false_eq_true, if_false]
      exact Option.not_isSome_iff_eq_none.mp (by simpa using hs)
  · intro disk path content hget
    unfold saveEntityFile
    rw [if_neg (by simp)]
    rw [hget]
    simp
  · intro disk path content old hget hne
    unfold saveEntityFile
    rw [if_neg (by simp)]
    rw [hget]
    simp [hne]

/-- C9 witness: saving an unchanged entity leaves the disk untouched. -/
theorem C9_load_marks_del_and_save_witness :
    saveEntityFile [("transactions/P/4.yaml", "c")] "transactions/P/4.yaml" false "c"
      = ([("transactions/P/4.yaml", "c")], .untouched) :=
  C9_load_marks_del_and_save.2.2.2.2.1 [("transactions/P/4.yaml", "c")]
    "transactions/P/4.yaml" "c" rfl

/-- C10 counterexample: a proposal whose safeTxHash is set at the start of
the pass (the stored child at index 1 of stC10) is nevertheless overwritten
by the pass, because the parent's child generation targets its path; its
stored entity changes (title and safeTxHash replaced). -/
theorem C10_submitted_overwritten_counterexample :
    (syncProposalsRun envBase 5 stC10).toOption.map
      (fun r => (r.1.proposals.length,
        r.1.proposals.map (fun pe => (pe.entity.title, pe.entity.safeTxHash))))
      = some (2, [("A", none), (childTitle "0xhash" "0xP", none)]) ∧
    stC10.proposals[1]?.map (fun pe => pe.entity.safeTxHash) = some (some "0xh0") :=
  ⟨rfl, rfl⟩

/-- C7 (amended): a failure of estimateSafeTransaction is recoverable - the
proposal's result row carries a manifest with the error field set, the
store and counters are untouched, and the run continues (the concrete
two-proposal run produces both error manifests and succeeds); a failure of
proposeTransaction, by contrast, is re-thrown (see the counterexample). -/
theorem C7_estimation_failure_recoverable :
    (∀ (env : Env) (fuel : Nat) (s : State) (cache : NonceMap) (cfg : Proposal)
        (co : ChildOf) (safe : PopulatedSafe) (context pfx fileName : String) (nonce : Int),
      cfg.childOf = some co →
      s.getSafeByAddress cfg.safe = some safe →
      env.estimate safe.address ⟨co.safe, "0", encodeApproveHash co.hash, 0, nonce⟩ = none →
      syncProposal env (fuel + 1) s cache cfg context pfx fileName nonce =
        .ok (s, cache, [(cfg, some (estimationErrorManifest safe cfg), pfx, false)])) ∧
    (∀ (env : Env) (fuel : Nat) (s : State) (cache : NonceMap) (cfg : Proposal)
        (sp fn : String) (t : ForgeTx) (safe : PopulatedSafe)
        (context pfx fileName : String) (nonce : Int),
      cfg.childOf = none →
      cfg.proposalScript = some sp →
      cfg.functionSig = some fn →
      s.getSafeByAddress cfg.safe = some safe →
      env.simulate cfg = some [t] →
      t.transactionType = "CALL" →
      env.estimate safe.address ⟨getAddress t.to, env.bigIntStr t.value, t.data, 0, nonce⟩ = none →
      syncProposal env (fuel + 1) s cache cfg context pfx fileName nonce =
        .ok (s, cache, [(cfg, some (estimationErrorManifest safe cfg), pfx, false)])) ∧
    ((syncProposalsRun envEstFail 5 stC7).toOption.map (fun r =>
        (r.2.2.1.map (fun m => (m.1, m.2.error)), r.1.proposals.length))
      = some ([("script/a.proposal.manifest.yaml", some "Safe estimation error"),
               ("script/b.proposal.manifest.yaml", some "Safe estimation error")], 2)) := by
  refine ⟨?_, ?_, rfl⟩
  · intro env fuel s cache cfg co safe context pfx fileName nonce hco hsafe hest
    unfold syncProposal
    simp only [hco, hsafe, hest]
  · intro env fuel s cache cfg sp fn t safe context pfx fileName nonce hco hsp hfn hsafe hsim hcall hest
    unfold syncProposal
    simp only [hco, hsp, hfn, hsafe, hsim, hcall, hest]
    simp only [getAddress] at hest
    simp [List.find?_cons, hcall, getAddress, hest]

/-- C7 witness: the childOf-branch estimation failure at a concrete
proposal. -/
theorem C7_estimation_failure_recoverable_witness :
    syncProposal envEstFail 5 stP [] cfgParent "script" "parent" "parent.proposal.yaml" 7 =
      .ok (stP, [], [(cfgParent, some (estimationErrorManifest safeP cfgParent), "parent", false)]) :=
  C7_estimation_failure_recoverable.1 envEstFail 4 stP [] cfgParent ⟨"0xQ", "0xph"⟩ safeP
    "script" "parent" "parent.proposal.yaml" 7 rfl rfl rfl

theorem mapGet_mapSet_self {α : Type} (m : List (String × α)) (k : String) (v : α) :
    mapGet (mapSet m k v) k = some v := by
  induction m with
  | nil => simp [mapGet, mapSet, List.find?_cons]
  | cons e rest ih =>
    unfold mapSet
    by_cases he : (e.1 == k) = true
    · rw [if_pos he]
      simp [mapGet, List.find?_cons]
    · rw [if_neg he]
      simpa [mapGet, List.find?_cons, he] using ih

theorem collectIndexes_mem :
    ∀ (l : List ProposalEntity) (n j : Nat), j ∈ collectIndexes l n →
      n ≤ j ∧ (l[j - n]?.map (fun pe => (pe.entity.safeTxHash, pe.entity.childOf)))
        = some (none, none) := by
  intro l
  induction l with
  | nil => intro n j h; simp [collectIndexes] at h
  | cons pe rest ih =>
    intro n j h
    unfold collectIndexes at h
    by_cases h1 : pe.entity.safeTxHash.isSome = true
    · rw [if_pos h1] at h
      obtain ⟨hle, hmap⟩ := ih (n + 1) j h
      refine ⟨by omega, ?_⟩
      have hsub : j - n = (j - (n + 1)) + 1 := by omega
      rw [hsub]
      simpa using hmap
    · rw [if_neg h1] at h
      by_cases h2 : pe.entity.childOf.isNone = true
      · rw [if_pos h2] at h
        rcases List.mem_cons.mp h with rfl | h3
        · refine ⟨le_refl _, ?_⟩
          simp only [Nat.sub_self]
          simp [Option.not_isSome_iff_eq_none.mp (by simpa using h1),
            Option.isNone_iff_eq_none.mp h2]
        · obtain ⟨hle, hmap⟩ := ih (n + 1) j h3
          refine ⟨by omega, ?_⟩
          have hsub : j - n = (j - (n + 1)) + 1 := by omega
          rw [hsub]
          simpa using hmap
      · rw [if_neg h2] at h
        obtain ⟨hle, hmap⟩ := ih (n + 1) j h
        refine ⟨by omega, ?_⟩
        have hsub : j - n = (j - (n + 1)) + 1 := by omega
        rw [hsub]
        simpa using hmap

theorem mapGet_mem {α : Type} (m : List (String × α)) (k : String) (v : α)
    (h : mapGet m k = some v) : (k, v) ∈ m := by
  unfold mapGet at h
  cases hf : m.find? (fun e => e.1 == k) with
  | none => rw [hf] at h; exact Option.noConfusion h
  | some e =>
    rw [hf] at h
    obtain rfl : e.2 = v := Option.some.inj h
    have h1 := List.find?_some hf
    have h2 := List.mem_of_find?_eq_some hf
    have he : e = (k, e.2) := by
      obtain ⟨e1, e2⟩ := e
      simp only at h1 ⊢
      simp only [Prod.mk.injEq, and_true]
      exact eq_of_beq h1
    rwa [← he]

theorem mem_mapSet {α : Type} (m : List (String × α)) (k : String) (v : α) :
    ∀ e, e ∈ mapSet m k v → e = (k, v) ∨ e ∈ m := by
  induction m with
  | nil =>
    intro e h
    unfold mapSet at h
    left
    simpa using h
  | cons e0 rest ih =>
    intro e h
    unfold mapSet at h
    by_cases he : (e0.1 == k) = true
    · rw [if_pos he] at h
      rcases List.mem_cons.mp h with rfl | h2
      · left; rfl
      · right; exact List.mem_cons_of_mem _ h2
    · rw [if_neg he] at h
      rcases List.mem_cons.mp h with rfl | h2
      · right; exact List.mem_cons_self _ _
      · rcases ih e h2 with h3 | h3
        · left; exact h3
        · right; exact List.mem_cons_of_mem _ h3

theorem schedInv_mapSet_nil (master : List Nat) (pm : SchedMap) (key : String)
    (hinv : ∀ k l, (k, l) ∈ pm → ∀ it ∈ l, it.idx ∈ master) :
    ∀ k l, (k, l) ∈ mapSet pm key [] → ∀ it ∈ l, it.idx ∈ master := by
  intro k l hkl it hit
  rcases mem_mapSet pm key [] (k, l) hkl with heq | hm
  · injection heq with h1 h2
    subst h2
    simp at hit
  · exact hinv k l hm it hit

theorem schedInv_push (master : List Nat) (pm : SchedMap) (key : String)
    (entry : List ScheduleItem) (item : ScheduleItem)
    (hinv : ∀ k l, (k, l) ∈ pm → ∀ it ∈ l, it.idx ∈ master)
    (hget : mapGet pm key = some entry) (hitem : item.idx ∈ master) :
    ∀ k l, (k, l) ∈ mapSet pm key (entry ++ [item]) → ∀ it ∈ l, it.idx ∈ master := by
  intro k l hkl it hit
  rcases mem_mapSet pm key (entry ++ [item]) (k, l) hkl with heq | hm
  · injection heq with h1 h2
    subst h1
    subst h2
    rcases List.mem_append.mp hit with h3 | h3
    · exact hinv _ entry (mapGet_mem _ _ _ hget) it h3
    · simp only [List.mem_singleton] at h3
      rw [h3]
      exact hitem
  · exact hinv k l hm it hit

theorem pass1Step_idx (s : State) (i : Nat) (nm : NonceMap) (pm : SchedMap)
    (nm₁ : NonceMap) (pm₁ : SchedMap)
    (h : pass1Step s i nm pm = .ok (nm₁, pm₁))
    (master : List Nat) (hi : i ∈ master)
    (hinv : ∀ k l, (k, l) ∈ pm → ∀ it ∈ l, it.idx ∈ master) :
    ∀ k l, (k, l) ∈ pm₁ → ∀ it ∈ l, it.idx ∈ master := by
  unfold pass1Step at h
  cases hpe : s.proposals[i]? with
  | none => rw [hpe] at h; exact Except.noConfusion h
  | some pe =>
  simp only [hpe] at h
  cases hsafe : s.getSafeByAddress pe.entity.safe with
  | none => rw [hsafe] at h; exact Except.noConfusion h
  | some safe =>
  simp only [hsafe] at h
  cases hnm : mapGet nm (getAddress safe.address) with
  | some nd0 =>
    simp only [hnm] at h
    by_cases hpm : (mapGet pm (getAddress safe.address)).isSome = true
    · obtain ⟨entry0, hpm0⟩ := Option.isSome_iff_exists.mp hpm
      simp only [hpm0] at h
      cases hn : pe.entity.nonce with
      | none =>
        simp only [hn] at h
        have h' := Except.ok.inj h
        injection h' with ha hb
        subst hb
        exact hinv
      | some raw =>
        simp only [hn, hnm] at h
        cases hres : resolveNonceString raw nd0 pe.entity.title with
        | error e => rw [hres] at h; exact Except.noConfusion h
        | ok vn =>
          obtain ⟨v, nd'⟩ := vn
          simp only [hres, hpm0] at h
          have h' := Except.ok.inj h
          injection h' with ha hb
          subst hb
          exact schedInv_push master pm (getAddress safe.address) entry0
            ⟨i, pe.entity, v⟩ hinv hpm0 hi
    · have hpm0 : mapGet pm (getAddress safe.address) = none :=
        Option.not_isSome_iff_eq_none.mp (by simpa using hpm)
      simp only [hpm0] at h
      cases hn : pe.entity.nonce with
      | none =>
        simp only [hn] at h
        have h' := Except.ok.inj h
        injection h' with ha hb
        subst hb
        exact schedInv_mapSet_nil master pm _ hinv
      | some raw =>
        simp only [hn, hnm] at h
        cases hres : resolveNonceString raw nd0 pe.entity.title with
        | error e => rw [hres] at h; exact Except.noConfusion h
        | ok vn =>
          obtain ⟨v, nd'⟩ := vn
          simp only [hres, mapGet_mapSet_self] at h
          have h' := Except.ok.inj h
          injection h' with ha hb
          subst hb
          exact schedInv_push master (mapSet pm (getAddress safe.address) [])
            (getAddress safe.address) [] ⟨i, pe.entity, v⟩
            (schedInv_mapSet_nil master pm _ hinv) (mapGet_mapSet_self _ _ _) hi
  | none =>
    cases hini : initNonceData s safe with
    | error e => simp only [hnm, hini] at h; exact Except.noConfusion h
    | ok nd =>
      simp only [hnm, hini] at h
      by_cases hpm : (mapGet pm (getAddress safe.address)).isSome = true
      · obtain ⟨entry0, hpm0⟩ := Option.isSome_iff_exists.mp hpm
        simp only [hpm0] at h
        cases hn : pe.entity.nonce with
        | none =>
          simp only [hn] at h
          have h' := Except.ok.inj h
          injection h' with ha hb
          subst hb
          exact hinv
        | some raw =>
          simp only [hn, mapGet_mapSet_self] at h
          cases hres : resolveNonceString raw nd pe.entity.title with
          | error e => rw [hres] at h; exact Except.noConfusion h
          | ok vn =>
            obtain ⟨v, nd'⟩ := vn
            simp only [hres, hpm0] at h
            have h' := Except.ok.inj h
            injection h' with ha hb
            subst hb
            exact schedInv_push master pm (getAddress safe.address) entry0
              ⟨i, pe.entity, v⟩ hinv hpm0 hi
      · have hpm0 : mapGet pm (getAddress safe.address) = none :=
          Option.not_isSome_iff_eq_none.mp (by simpa using hpm)
        simp only [hpm0] at h
        cases hn : pe.entity.nonce with
        | none =>
          simp only [hn] at h
          have h' := Except.ok.inj h
          injection h' with ha hb
          subst hb
          exact schedInv_mapSet_nil master pm _ hinv
        | some raw =>
          simp only [hn, mapGet_mapSet_self] at h
          cases hres : resolveNonceString raw nd pe.entity.title with
          | error e => rw [hres] at h; exact Except.noConfusion h
          | ok vn =>
            obtain ⟨v, nd'⟩ := vn
            simp only [hres, mapGet_mapSet_self] at h
            have h' := Except.ok.inj h
            injection h' with ha hb
            subst hb
            exact schedInv_push master (mapSet pm (getAddress safe.address) [])
              (getAddress safe.address) [] ⟨i, pe.entity, v⟩
              (schedInv_mapSet_nil master pm _ hinv) (mapGet_mapSet_self _ _ _) hi

theorem pass2Step_idx (s : State) (i : Nat) (nm : NonceMap) (pm : SchedMap)
    (nm₁ : NonceMap) (pm₁ : SchedMap)
    (h : pass2Step s i nm pm = .ok (nm₁, pm₁))
    (master : List Nat) (hi : i ∈ master)
    (hinv : ∀ k l, (k, l) ∈ pm → ∀ it ∈ l, it.idx ∈ master) :
    ∀ k l, (k, l) ∈ pm₁ → ∀ it ∈ l, it.idx ∈ master := by
  unfold pass2Step at h
  cases hpe : s.proposals[i]? with
  | none => rw [hpe] at h; exact Except.noConfusion h
  | some pe =>
  simp only [hpe] at h
  cases hsafe : s.getSafeByAddress pe.entity.safe with
  | none => rw [hsafe] at h; exact Except.noConfusion h
  | some safe =>
  simp only [hsafe] at h
  cases hn : pe.entity.nonce with
  | some raw =>
    simp only [hn] at h
    have h' := Except.ok.inj h
    injection h' with ha hb
    subst hb
    exact hinv
  | none =>
    simp only [hn] at h
    cases hnm : mapGet nm (getAddress safe.address) with
    | none => simp only [hnm] at h; exact Except.noConfusion h
    | some nd =>
      cases hpm : mapGet pm (getAddress safe.address) with
      | none => simp only [hnm, hpm] at h; exact Except.noConfusion h
      | some entry =>
        simp only [hnm, hpm] at h
        have h' := Except.ok.inj h
        injection h' with ha hb
        subst hb
        exact schedInv_push master pm (getAddress safe.address) entry
          ⟨i, pe.entity, nd.auto⟩ hinv hpm hi

theorem resolvePass1_idx (s : State) (master : List Nat) :
    ∀ (idxs : List Nat) (nm : NonceMap) (pm : SchedMap) (nm' : NonceMap) (pm' : SchedMap),
      (∀ j ∈ idxs, j ∈ master) →
      (∀ k l, (k, l) ∈ pm → ∀ it ∈ l, it.idx ∈ master) →
      resolvePass1 s idxs nm pm = .ok (nm', pm') →
      ∀ k l, (k, l) ∈ pm' → ∀ it ∈ l, it.idx ∈ master := by
  intro idxs
  induction idxs with
  | nil =>
    intro nm pm nm' pm' hsub hinv h
    unfold resolvePass1 at h
    have h' := Except.ok.inj h
    injection h' with ha hb
    subst hb
    exact hinv
  | cons i rest ih =>
    intro nm pm nm' pm' hsub hinv h
    unfold resolvePass1 at h
    cases hstep : pass1Step s i nm pm with
    | error e => rw [hstep] at h; exact Except.noConfusion h
    | ok r =>
      obtain ⟨nm₁, pm₁⟩ := r
      simp only [hstep] at h
      exact ih nm₁ pm₁ nm' pm'
        (fun j hj => hsub j (List.mem_cons_of_mem _ hj))
        (pass1Step_idx s i nm pm nm₁ pm₁ hstep master (hsub i (List.mem_cons_self _ _)) hinv)
        h

theorem resolvePass2_idx (s : State) (master : List Nat) :
    ∀ (idxs : List Nat) (nm : NonceMap) (pm : SchedMap) (nm' : NonceMap) (pm' : SchedMap),
      (∀ j ∈ idxs, j ∈ master) →
      (∀ k l, (k, l) ∈ pm → ∀ it ∈ l, it.idx ∈ master) →
      resolvePass2 s idxs nm pm = .ok (nm', pm') →
      ∀ k l, (k, l) ∈ pm' → ∀ it ∈ l, it.idx ∈ master := by
  intro idxs
  induction idxs with
  | nil =>
    intro nm pm nm' pm' hsub hinv h
    unfold resolvePass2 at h
    have h' := Except.ok.inj h
    injection h' with ha hb
    subst hb
    exact hinv
  | cons i rest ih =>
    intro nm pm nm' pm' hsub hinv h
    unfold resolvePass2 at h
    cases hstep : pass2Step s i nm pm with
    | error e => rw [hstep] at h; exact Except.noConfusion h
    | ok r =>
      obtain ⟨nm₁, pm₁⟩ := r
      simp only [hstep] at h
      exact ih nm₁ pm₁ nm' pm'
        (fun j hj => hsub j (List.mem_cons_of_mem _ hj))
        (pass2Step_idx s i nm pm nm₁ pm₁ hstep master (hsub i (List.mem_cons_self _ _)) hinv)
        h

/-- C10 (amended): a proposal whose safeTxHash is already set at the start
of the pass is excluded from the queue of the resolution phase and from
every per-safe schedule, so it is never itself nonce-resolved, child
generating, or submitted; the pass may however overwrite its stored entity
through another proposal's child generation. -/
theorem C10_submitted_excluded (s : State) (i : Nat) (pe : ProposalEntity)
    (hpe : s.proposals[i]? = some pe) (hhash : pe.entity.safeTxHash.isSome = true) :
    i ∉ collectIndexes s.proposals 0 ∧
    (∀ pm nm, resolveSchedules s = .ok (pm, nm) →
      ∀ k l it, (k, l) ∈ pm → it ∈ l → it.idx ≠ i) := by
  have hnotin : i ∉ collectIndexes s.proposals 0 := by
    intro hmem
    obtain ⟨_, hmap⟩ := collectIndexes_mem s.proposals 0 i hmem
    rw [Nat.sub_zero, hpe] at hmap
    simp only [Option.map_some', Option.some.injEq, Prod.mk.injEq] at hmap
    rw [hmap.1] at hhash
    exact Bool.noConfusion hhash
  refine ⟨hnotin, ?_⟩
  intro pm nm h k l it hkl hit hidx
  unfold resolveSchedules at h
  simp only [] at h
  cases h1 : resolvePass1 s (collectIndexes s.proposals 0) [] [] with
  | error e => rw [h1] at h; exact Except.noConfusion h
  | ok r1 =>
    obtain ⟨nm₁, pm₁⟩ := r1
    simp only [h1] at h
    cases h2 : resolvePass2 s (collectIndexes s.proposals 0) nm₁ pm₁ with
    | error e => rw [h2] at h; exact Except.noConfusion h
    | ok r2 =>
      obtain ⟨nm₂, pm₂⟩ := r2
      simp only [h2] at h
      have h' := Except.ok.inj h
      injection h' with ha hb
      subst ha
      subst hb
      obtain ⟨⟨k0, l0⟩, hm0, heq⟩ := List.mem_map.mp hkl
      injection heq with hk hl
      subst hk
      subst hl
      have hit0 : it ∈ l0 := (List.perm_insertionSort schedLE l0).mem_iff.mp hit
      have hinv1 := resolvePass1_idx s (collectIndexes s.proposals 0)
        (collectIndexes s.proposals 0) [] [] nm₁ pm₁ (fun j hj => hj)
        (by intro k l hkl2 it2 hit2; simp at hkl2) h1
      have hinv2 := resolvePass2_idx s (collectIndexes s.proposals 0)
        (collectIndexes s.proposals 0) nm₁ pm₁ nm₂ pm₂ (fun j hj => hj) hinv1 h2
      have : it.idx ∈ collectIndexes s.proposals 0 := hinv2 k0 l0 hm0 it hit0
      rw [hidx] at this
      exact hnotin this

/-- C10 witness: the already-submitted child of stC10 (index 1) is not
queued. -/
theorem C10_submitted_excluded_witness :
    (1 : Nat) ∉ collectIndexes stC10.proposals 0 :=
  (C10_submitted_excluded stC10 1 ⟨"script/0xhash.0.child.proposal.yaml", false, propChildOld⟩
    rfl rfl).1

end SafeCD
